import Mathlib

/-!
Shallow embedding of the synthesis core of the repository (a real-time
polyphonic software synthesizer) and proofs about it.

Modelling conventions, used throughout:

* Python floats are modelled as exact rationals (`ℚ`): every quantity the
  claims speak about (envelope levels, gains, phase bookkeeping) is defined
  by rational arithmetic in the source, and the claims are about the
  algorithm, not about binary rounding.
* Fallible Python code is modelled with `Option`: `none` is a raised
  exception (`ZeroDivisionError`, `AttributeError`, `IndexError`,
  `ValueError`), recorded branch by branch next to the line that raises.
* The oscillator phase is stored in revolutions (`radians / 2π`), so that
  the `% 2π` bookkeeping of `oscillator.py` is exact rational arithmetic;
  a sample is the waveform evaluated at `2π·phase`, e.g. `Real.sin (2π·φ)`
  for the sine shape, which the theorems state explicitly.
-/

namespace Synth

/-! ### numpy.linspace

`np.linspace(a, b, n)` with the default `endpoint=True`: `n` evenly spaced
values from `a` to `b` inclusive; `n = 0` gives the empty array and
`n = 1` gives `[a]`. -/

def linspace (a b : ℚ) (n : ℕ) : List ℚ :=
  if n = 0 then []
  else if n = 1 then [a]
  else (List.range n).map (fun (j : ℕ) => a + (b - a) * (j : ℚ) / ((n : ℚ) - 1))

/-! ### envelope.py : class ADSREnvelope -/

inductive EnvState
  | idle
  | attack
  | decay
  | sustain
  | release
deriving DecidableEq, Repr

structure ADSREnvelope where
  sampleRate : ℚ
  attack : ℚ
  decay : ℚ
  sustain : ℚ
  release : ℚ
  currentLevel : ℚ
  currentSample : ℕ
  state : EnvState
  releaseLevel : ℚ
deriving DecidableEq, Repr

/-- `ADSREnvelope.__init__`. -/
def ADSREnvelope.init (sampleRate : ℚ) : ADSREnvelope :=
  { sampleRate := sampleRate
    attack := 1/100
    decay := 1/10
    sustain := 7/10
    release := 1/5
    currentLevel := 0
    currentSample := 0
    state := EnvState.idle
    releaseLevel := 0 }

/-- `ADSREnvelope.trigger_attack`. -/
def ADSREnvelope.triggerAttack (e : ADSREnvelope) : ADSREnvelope :=
  { e with state := EnvState.attack, currentSample := 0 }

/-- `ADSREnvelope.trigger_release`: captures the current level into
`release_level` and restarts the sample counter. -/
def ADSREnvelope.triggerRelease (e : ADSREnvelope) : ADSREnvelope :=
  { e with state := EnvState.release, currentSample := 0,
           releaseLevel := e.currentLevel }

/-- `ADSREnvelope.is_finished`: `state == 'idle' and current_level < 0.0001`. -/
def ADSREnvelope.isFinished (e : ADSREnvelope) : Bool :=
  decide (e.state = EnvState.idle) && decide (e.currentLevel < 1/10000)

/-- One iteration of the per-sample loop in `ADSREnvelope.generate`
(envelope.py lines 33-62).  Returns the mutated envelope and the sample
written for this iteration (the loop stores `current_level` after the
branch ran, then increments `current_sample`).  The attack, decay and
release branches divide by `time·sample_rate`; when that product is zero
Python raises `ZeroDivisionError`, modelled as `none`. -/
def ADSREnvelope.step (e : ADSREnvelope) : Option (ADSREnvelope × ℚ) :=
  match e.state with
  | EnvState.idle =>
      some ({ e with currentLevel := 0, currentSample := e.currentSample + 1 }, 0)
  | EnvState.attack =>
      if e.attack * e.sampleRate = 0 then none
      else if 1 ≤ (e.currentSample : ℚ) / (e.attack * e.sampleRate) then
        some ({ e with currentLevel := 1, state := EnvState.decay,
                       currentSample := 1 }, 1)
      else
        some ({ e with currentLevel := (e.currentSample : ℚ) / (e.attack * e.sampleRate),
                       currentSample := e.currentSample + 1 },
              (e.currentSample : ℚ) / (e.attack * e.sampleRate))
  | EnvState.decay =>
      if e.decay * e.sampleRate = 0 then none
      else if 1 - (1 - e.sustain) * ((e.currentSample : ℚ) / (e.decay * e.sampleRate)) ≤ e.sustain then
        some ({ e with currentLevel := e.sustain, state := EnvState.sustain,
                       currentSample := e.currentSample + 1 }, e.sustain)
      else
        some ({ e with currentLevel := 1 - (1 - e.sustain) * ((e.currentSample : ℚ) / (e.decay * e.sampleRate)),
                       currentSample := e.currentSample + 1 },
              1 - (1 - e.sustain) * ((e.currentSample : ℚ) / (e.decay * e.sampleRate)))
  | EnvState.sustain =>
      some ({ e with currentLevel := e.sustain,
                     currentSample := e.currentSample + 1 }, e.sustain)
  | EnvState.release =>
      if e.release * e.sampleRate = 0 then none
      else if e.releaseLevel - e.releaseLevel * ((e.currentSample : ℚ) / (e.release * e.sampleRate)) ≤ 0 then
        some ({ e with currentLevel := 0, state := EnvState.idle,
                       currentSample := e.currentSample + 1 }, 0)
      else
        some ({ e with currentLevel := e.releaseLevel - e.releaseLevel * ((e.currentSample : ℚ) / (e.release * e.sampleRate)),
                       currentSample := e.currentSample + 1 },
              e.releaseLevel - e.releaseLevel * ((e.currentSample : ℚ) / (e.release * e.sampleRate)))

/-- `ADSREnvelope.generate(num_samples)`: run the per-sample loop
`num_samples` times, collecting the written samples in order. -/
def ADSREnvelope.generate (e : ADSREnvelope) : ℕ → Option (ADSREnvelope × List ℚ)
  | 0 => some (e, [])
  | n + 1 =>
      match e.step with
      | none => none
      | some (e', q) =>
          match e'.generate n with
          | none => none
          | some (e'', l) => some (e'', q :: l)

/-! #### Generic facts about `ADSREnvelope.generate` -/

theorem ADSREnvelope.generate_add (e : ADSREnvelope) (m n : ℕ) :
    e.generate (m + n) =
      (e.generate m).bind (fun p =>
        (p.1.generate n).map (fun q => (q.1, p.2 ++ q.2))) := by
  induction m generalizing e with
  | zero =>
      cases h : e.generate n <;> simp [ADSREnvelope.generate, h]
  | succ m ih =>
      have hrw : m + 1 + n = (m + n) + 1 := by omega
      rw [hrw]
      cases hs : e.step with
      | none => simp [ADSREnvelope.generate, hs]
      | some p =>
          obtain ⟨e', q⟩ := p
          simp only [ADSREnvelope.generate, hs, ih e']
          cases hm : e'.generate m with
          | none => simp
          | some p₁ =>
              obtain ⟨e₁, l₁⟩ := p₁
              cases hn : e₁.generate n <;> simp [hn]

theorem ADSREnvelope.step_attack_mid (e : ADSREnvelope) (A : ℕ)
    (hst : e.state = EnvState.attack) (hA : e.attack * e.sampleRate = (A : ℚ))
    (h0 : 0 < A) (hc : e.currentSample < A) :
    e.step = some ({ e with currentLevel := (e.currentSample : ℚ) / (A : ℚ),
                            currentSample := e.currentSample + 1 },
                   (e.currentSample : ℚ) / (A : ℚ)) := by
  have hAq : (0 : ℚ) < (A : ℚ) := by exact_mod_cast h0
  have hlt : (e.currentSample : ℚ) / (A : ℚ) < 1 :=
    (div_lt_one hAq).mpr (by exact_mod_cast hc)
  simp [ADSREnvelope.step, hst, hA, hAq.ne', not_le.mpr hlt]

theorem ADSREnvelope.step_attack_boundary (e : ADSREnvelope) (A : ℕ)
    (hst : e.state = EnvState.attack) (hA : e.attack * e.sampleRate = (A : ℚ))
    (h0 : 0 < A) (hc : e.currentSample = A) :
    e.step = some ({ e with currentLevel := 1, state := EnvState.decay,
                            currentSample := 1 }, 1) := by
  have hAq : (0 : ℚ) < (A : ℚ) := by exact_mod_cast h0
  have hq : (e.currentSample : ℚ) / (A : ℚ) = 1 := by
    rw [hc]; exact div_self hAq.ne'
  simp [ADSREnvelope.step, hst, hA, hAq.ne', hq]

theorem ADSREnvelope.step_decay_mid (e : ADSREnvelope) (D : ℕ)
    (hst : e.state = EnvState.decay) (hD : e.decay * e.sampleRate = (D : ℚ))
    (h0 : 0 < D) (hs1 : e.sustain < 1) (hc : e.currentSample < D) :
    e.step = some ({ e with
        currentLevel := 1 - (1 - e.sustain) * ((e.currentSample : ℚ) / (D : ℚ)),
        currentSample := e.currentSample + 1 },
      1 - (1 - e.sustain) * ((e.currentSample : ℚ) / (D : ℚ))) := by
  have hDq : (0 : ℚ) < (D : ℚ) := by exact_mod_cast h0
  have hlt : (e.currentSample : ℚ) / (D : ℚ) < 1 :=
    (div_lt_one hDq).mpr (by exact_mod_cast hc)
  have hgt : e.sustain < 1 - (1 - e.sustain) * ((e.currentSample : ℚ) / (D : ℚ)) := by
    have hpos : (0 : ℚ) < 1 - e.sustain := by linarith
    nlinarith [mul_lt_mul_of_pos_left hlt hpos]
  simp [ADSREnvelope.step, hst, hD, hDq.ne', not_le.mpr hgt]

theorem ADSREnvelope.step_decay_boundary (e : ADSREnvelope) (D : ℕ)
    (hst : e.state = EnvState.decay) (hD : e.decay * e.sampleRate = (D : ℚ))
    (h0 : 0 < D) (hc : e.currentSample = D) :
    e.step = some ({ e with currentLevel := e.sustain, state := EnvState.sustain,
                            currentSample := e.currentSample + 1 }, e.sustain) := by
  have hDq : (0 : ℚ) < (D : ℚ) := by exact_mod_cast h0
  have hq : (e.currentSample : ℚ) / (D : ℚ) = 1 := by
    rw [hc]; exact div_self hDq.ne'
  have hle : 1 - (1 - e.sustain) * ((e.currentSample : ℚ) / (D : ℚ)) ≤ e.sustain := by
    rw [hq]; ring_nf; exact le_refl _
  simp [ADSREnvelope.step, hst, hD, hDq.ne', hle]

theorem ADSREnvelope.step_sustain (e : ADSREnvelope)
    (hst : e.state = EnvState.sustain) :
    e.step = some ({ e with currentLevel := e.sustain,
                            currentSample := e.currentSample + 1 }, e.sustain) := by
  simp [ADSREnvelope.step, hst]

theorem ADSREnvelope.step_release_mid (e : ADSREnvelope) (R : ℕ)
    (hst : e.state = EnvState.release) (hR : e.release * e.sampleRate = (R : ℚ))
    (h0 : 0 < R) (hL : 0 < e.releaseLevel) (hc : e.currentSample < R) :
    e.step = some ({ e with
        currentLevel := e.releaseLevel - e.releaseLevel * ((e.currentSample : ℚ) / (R : ℚ)),
        currentSample := e.currentSample + 1 },
      e.releaseLevel - e.releaseLevel * ((e.currentSample : ℚ) / (R : ℚ))) := by
  have hRq : (0 : ℚ) < (R : ℚ) := by exact_mod_cast h0
  have hlt : (e.currentSample : ℚ) / (R : ℚ) < 1 :=
    (div_lt_one hRq).mpr (by exact_mod_cast hc)
  have hgt : 0 < e.releaseLevel - e.releaseLevel * ((e.currentSample : ℚ) / (R : ℚ)) := by
    nlinarith [mul_lt_mul_of_pos_left hlt hL]
  simp [ADSREnvelope.step, hst, hR, hRq.ne', not_le.mpr hgt]

theorem ADSREnvelope.step_release_boundary (e : ADSREnvelope) (R : ℕ)
    (hst : e.state = EnvState.release) (hR : e.release * e.sampleRate = (R : ℚ))
    (h0 : 0 < R) (hc : e.currentSample = R) :
    e.step = some ({ e with currentLevel := 0, state := EnvState.idle,
                            currentSample := e.currentSample + 1 }, 0) := by
  have hRq : (0 : ℚ) < (R : ℚ) := by exact_mod_cast h0
  have hq : (e.currentSample : ℚ) / (R : ℚ) = 1 := by
    rw [hc]; exact div_self hRq.ne'
  have hle : e.releaseLevel - e.releaseLevel * ((e.currentSample : ℚ) / (R : ℚ)) ≤ 0 := by
    rw [hq]; ring_nf; exact le_refl _
  simp [ADSREnvelope.step, hst, hR, hRq.ne', hle]

theorem ADSREnvelope.attack_run (A : ℕ) (hA0 : 0 < A) :
    ∀ (n : ℕ) (e : ADSREnvelope), 1 ≤ n → e.state = EnvState.attack →
      e.attack * e.sampleRate = (A : ℚ) → e.currentSample + n ≤ A →
      e.generate n =
        some ({ e with currentSample := e.currentSample + n,
                       currentLevel := ((e.currentSample + n - 1 : ℕ) : ℚ) / (A : ℚ) },
              (List.range n).map (fun j => ((e.currentSample + j : ℕ) : ℚ) / (A : ℚ))) := by
  intro n
  induction n with
  | zero => intro e h1 _ _ _; omega
  | succ n ih =>
      intro e _ hst hA hle
      have hstep := ADSREnvelope.step_attack_mid e A hst hA hA0 (by omega)
      rcases Nat.eq_zero_or_pos n with hn0 | hn1
      · subst hn0
        simp [ADSREnvelope.generate, hstep, List.range_succ]
      · have hle' : ({ e with
            currentLevel := (e.currentSample : ℚ) / (A : ℚ),
            currentSample := e.currentSample + 1 } : ADSREnvelope).currentSample + n ≤ A := by
          show e.currentSample + 1 + n ≤ A
          omega
        have ih' := ih { e with
            currentLevel := (e.currentSample : ℚ) / (A : ℚ),
            currentSample := e.currentSample + 1 } hn1 hst hA hle'
        simp only [ADSREnvelope.generate, hstep, ih']
        have h3 : ∀ j : ℕ, e.currentSample + 1 + j = e.currentSample + (j + 1) :=
          fun j => by omega
        simp only [h3]
        simp [List.range_succ_eq_map, Function.comp, Nat.succ_eq_add_one]

theorem ADSREnvelope.sustain_run :
    ∀ (n : ℕ) (e : ADSREnvelope), 1 ≤ n → e.state = EnvState.sustain →
      e.generate n =
        some ({ e with currentSample := e.currentSample + n,
                       currentLevel := e.sustain },
              List.replicate n e.sustain) := by
  intro n
  induction n with
  | zero => intro e h1 _; omega
  | succ n ih =>
      intro e _ hst
      have hstep := ADSREnvelope.step_sustain e hst
      rcases Nat.eq_zero_or_pos n with hn0 | hn1
      · subst hn0
        simp [ADSREnvelope.generate, hstep]
      · have ih' := ih { e with
            currentLevel := e.sustain,
            currentSample := e.currentSample + 1 } hn1 hst
        simp only [ADSREnvelope.generate, hstep, ih']
        have h1 : e.currentSample + 1 + n = e.currentSample + (n + 1) := by omega
        simp [h1, List.replicate_succ]

theorem ADSREnvelope.decay_run (D : ℕ) (hD0 : 0 < D) (s : ℚ) (hs1 : s < 1) :
    ∀ (n : ℕ) (e : ADSREnvelope), 1 ≤ n → e.state = EnvState.decay →
      e.decay * e.sampleRate = (D : ℚ) → e.sustain = s → e.currentSample + n ≤ D →
      e.generate n =
        some ({ e with currentSample := e.currentSample + n,
                       currentLevel := 1 - (1 - s) * (((e.currentSample + n - 1 : ℕ) : ℚ) / (D : ℚ)) },
              (List.range n).map (fun j =>
                1 - (1 - s) * (((e.currentSample + j : ℕ) : ℚ) / (D : ℚ)))) := by
  intro n
  induction n with
  | zero => intro e h1 _ _ _ _; omega
  | succ n ih =>
      intro e _ hst hD hsus hle
      have hstep := ADSREnvelope.step_decay_mid e D hst hD hD0 (hsus ▸ hs1) (by omega)
      rcases Nat.eq_zero_or_pos n with hn0 | hn1
      · subst hn0
        simp [ADSREnvelope.generate, hstep, List.range_succ, hsus]
      · have hle' : ({ e with
            currentLevel := 1 - (1 - e.sustain) * ((e.currentSample : ℚ) / (D : ℚ)),
            currentSample := e.currentSample + 1 } : ADSREnvelope).currentSample + n ≤ D := by
          show e.currentSample + 1 + n ≤ D
          omega
        have ih' := ih { e with
            currentLevel := 1 - (1 - e.sustain) * ((e.currentSample : ℚ) / (D : ℚ)),
            currentSample := e.currentSample + 1 } hn1 hst hD hsus hle'
        simp only [ADSREnvelope.generate, hstep, ih']
        have h3 : ∀ j : ℕ, e.currentSample + 1 + j = e.currentSample + (j + 1) :=
          fun j => by omega
        simp only [h3, hsus]
        simp [List.range_succ_eq_map, Function.comp, Nat.succ_eq_add_one]

theorem ADSREnvelope.release_run (R : ℕ) (hR0 : 0 < R) (L : ℚ) (hL : 0 < L) :
    ∀ (n : ℕ) (e : ADSREnvelope), 1 ≤ n → e.state = EnvState.release →
      e.release * e.sampleRate = (R : ℚ) → e.releaseLevel = L → e.currentSample + n ≤ R →
      e.generate n =
        some ({ e with currentSample := e.currentSample + n,
                       currentLevel := L - L * (((e.currentSample + n - 1 : ℕ) : ℚ) / (R : ℚ)) },
              (List.range n).map (fun j =>
                L - L * (((e.currentSample + j : ℕ) : ℚ) / (R : ℚ)))) := by
  intro n
  induction n with
  | zero => intro e h1 _ _ _ _; omega
  | succ n ih =>
      intro e _ hst hR hrl hle
      have hstep := ADSREnvelope.step_release_mid e R hst hR hR0 (hrl ▸ hL) (by omega)
      rcases Nat.eq_zero_or_pos n with hn0 | hn1
      · subst hn0
        simp [ADSREnvelope.generate, hstep, List.range_succ, hrl]
      · have hle' : ({ e with
            currentLevel := e.releaseLevel - e.releaseLevel * ((e.currentSample : ℚ) / (R : ℚ)),
            currentSample := e.currentSample + 1 } : ADSREnvelope).currentSample + n ≤ R := by
          show e.currentSample + 1 + n ≤ R
          omega
        have ih' := ih { e with
            currentLevel := e.releaseLevel - e.releaseLevel * ((e.currentSample : ℚ) / (R : ℚ)),
            currentSample := e.currentSample + 1 } hn1 hst hR hrl hle'
        simp only [ADSREnvelope.generate, hstep, ih']
        have h3 : ∀ j : ℕ, e.currentSample + 1 + j = e.currentSample + (j + 1) :=
          fun j => by omega
        simp only [h3, hrl]
        simp [List.range_succ_eq_map, Function.comp, Nat.succ_eq_add_one]

theorem ADSREnvelope.generate_one (e : ADSREnvelope) :
    e.generate 1 = (e.step).map (fun q => (q.1, [q.2])) := by
  cases h : e.step with
  | none => simp [ADSREnvelope.generate, h]
  | some p =>
      obtain ⟨e', q⟩ := p
      simp [ADSREnvelope.generate, h]

/-! ### oscillator.py : class Oscillator -/

inductive Waveform
  | sine
  | square
  | triangle
  | sawtooth
deriving DecidableEq, Repr

/-- `Oscillator` state.  The source stores `phase` in radians; `phaseRev`
is that phase divided by `2π` ("revolutions"), making the source's
`phase %= 2.0 * np.pi` exact rational arithmetic (`Int.fract`).  The
radian phase of a stored value `φ` is `2π·φ`. -/
structure Oscillator where
  sampleRate : ℚ
  phaseRev : ℚ
  frequency : ℚ
  waveform : Waveform
deriving DecidableEq, Repr

/-- `Oscillator.__init__`. -/
def Oscillator.init (sampleRate : ℚ) : Oscillator :=
  { sampleRate := sampleRate, phaseRev := 0, frequency := 440,
    waveform := Waveform.sine }

/-- `Oscillator.set_frequency`. -/
def Oscillator.setFrequency (o : Oscillator) (freq : ℚ) : Oscillator :=
  { o with frequency := freq }

/-- `Oscillator.generate(num_samples)` (oscillator.py lines 13-33), in
revolutions: the phase increment is `frequency / sample_rate` per sample,
`phases[j] = phase + increment·j`, and the stored phase becomes
`(phases[-1] + increment) mod 1`.  Returns the phase sequence; the
emitted block applies the selected waveform pointwise to `2π·phases`
(sine: `Real.sin (2π·φ_j)`), which the theorems state explicitly.
`phases[-1]` on the empty array raised by `num_samples = 0` is an
`IndexError`, modelled as `none`. -/
def Oscillator.generate (o : Oscillator) (numSamples : ℕ) : Option (Oscillator × List ℚ) :=
  let inc := o.frequency / o.sampleRate
  let phases := (List.range numSamples).map (fun (j : ℕ) => o.phaseRev + inc * (j : ℚ))
  match phases.getLast? with
  | none => none
  | some last => some ({ o with phaseRev := Int.fract (last + inc) }, phases)

/-! ### Python dict helpers

`synth_core.py` keeps voices and CC values in Python dicts keyed by small
integers.  A dict is modelled as an insertion-ordered association list
with unique keys: assignment to an existing key replaces in place,
assignment to a fresh key appends, `del` removes the (unique) entry. -/

def dictKeys {α : Type} (l : List (ℕ × α)) : List ℕ := l.map Prod.fst

def dictInsert {α : Type} (k : ℕ) (val : α) : List (ℕ × α) → List (ℕ × α)
  | [] => [(k, val)]
  | (k', v') :: rest =>
      if k' = k then (k, val) :: rest else (k', v') :: dictInsert k val rest

def dictRemove {α : Type} (k : ℕ) : List (ℕ × α) → List (ℕ × α)
  | [] => []
  | (k', v') :: rest => if k' = k then rest else (k', v') :: dictRemove k rest

def dictGet {α : Type} : List (ℕ × α) → ℕ → Option α
  | [], _ => none
  | (k', v) :: rest, k => if k' = k then some v else dictGet rest k

/-- Python's `min(keys)` over a (nonempty) key list. -/
def keysMin : List ℕ → Option ℕ
  | [] => none
  | k :: rest =>
      some (match keysMin rest with
            | none => k
            | some m => min k m)

/-! ### synth_core.py -/

/-- `SAMPLE_RATE = 44100`. -/
def SAMPLE_RATE : ℚ := 44100

inductive VoiceEnvState
  | attack
  | decay
  | sustain
  | release
deriving DecidableEq, Repr

/-- `synth_core.Voice` state.

* `velocity` is the normalized `velocity / 127.0`.
* `frequency` is derived once as `440·2^((note_num-69)/12)`; it is an
  irrational real for most notes and is read only by the sine evaluation
  and the phase reduction (see `Voice.generateSamplesState`), so it is
  not stored separately from `noteNum`.
* `phaseSec` is the oscillator phase in seconds, kept exact: the source
  stores it reduced modulo `1.0 / self.frequency`, one full period of
  `sin(2π·frequency·t)`, so the reduction changes no generated sample.
* Unused decorative fields of `Voice.__init__` (waveform, detune,
  pulse_width, filter parameters, `filter_env`, LFO settings,
  `current_level`) are read by no code path modelled here and are
  omitted.  The amplitude-envelope dict `amp_env` is inlined as the four
  `amp*` fields.  Note that `Voice.__init__` defines no attribute named
  `sustain`: `_get_envelope`'s reads of `self.sustain` raise
  `AttributeError` (see `Voice.getEnvelopeLoop`). -/
structure Voice where
  noteNum : ℕ
  velocity : ℚ
  phaseSec : ℚ
  active : Bool
  ampAttack : ℚ
  ampDecay : ℚ
  ampSustain : ℚ
  ampRelease : ℚ
  envelopeState : VoiceEnvState
  envelopePos : ℕ
deriving DecidableEq, Repr

/-- `Voice.__init__(note_num, velocity)`. -/
def Voice.init (noteNum velocity : ℕ) : Voice :=
  { noteNum := noteNum
    velocity := (velocity : ℚ) / 127
    phaseSec := 0
    active := true
    ampAttack := 1/100
    ampDecay := 1/10
    ampSustain := 7/10
    ampRelease := 1/5
    envelopeState := VoiceEnvState.attack
    envelopePos := 0 }

/-- `Voice.release_note`. -/
def Voice.releaseNote (v : Voice) : Voice :=
  if v.envelopeState ≠ VoiceEnvState.release then
    { v with envelopeState := VoiceEnvState.release, envelopePos := 0 }
  else v

/-- The `while pos < num_samples` loop of `Voice._get_envelope`
(synth_core.py lines 68-119), one recursive call per iteration.

* attack (lines 69-83): `attack_samples = int(attack·SAMPLE_RATE)`;
  the `np.linspace` arguments divide by `attack_samples`
  (`ZeroDivisionError` when it is 0, modelled `none`) and a negative
  `samples_to_fill` makes `np.linspace` raise `ValueError` (`none`).
* decay (lines 85-97): line 90 evaluates
  `envelope_pos / decay_samples` (`ZeroDivisionError` when
  `int(decay·SAMPLE_RATE) = 0`) and then reads `self.sustain`, an
  attribute `Voice.__init__` never defines (line 91 beside it correctly
  reads `self.amp_env['sustain']`): `AttributeError`.  Either way the
  call raises, modelled `none`.
* sustain (lines 99-101): line 101 reads `self.sustain`:
  `AttributeError`, modelled `none`.
* release (lines 103-117): `remaining ≤ 0` returns the partially
  filled envelope (zeros beyond `pos`) with `active = False`; otherwise
  line 112 reads `self.sustain`: `AttributeError`, modelled `none`.

`fuel` only bounds the recursion for Lean: every iteration either
appends at least one sample or transitions attack→decay (whose next
iteration returns), so `2·num + 4` iterations are never exhausted. -/
def Voice.getEnvelopeLoop : ℕ → Voice → ℕ → ℕ → List ℚ → Option (Voice × List ℚ)
  | 0, _, _, _, _ => none
  | fuel + 1, v, num, pos, acc =>
      if num ≤ pos then some (v, acc)
      else
        match v.envelopeState with
        | VoiceEnvState.attack =>
            let aS : ℕ := (⌊v.ampAttack * SAMPLE_RATE⌋).toNat
            let fill : ℤ := min ((aS : ℤ) - (v.envelopePos : ℤ)) ((num : ℤ) - (pos : ℤ))
            if aS = 0 then none
            else if fill < 0 then none
            else
              let chunk := linspace ((v.envelopePos : ℚ) / (aS : ℚ))
                (((v.envelopePos : ℚ) + (fill : ℚ)) / (aS : ℚ)) fill.toNat
              let newEnvPos := v.envelopePos + fill.toNat
              let v' := if aS ≤ newEnvPos then
                  { v with envelopeState := VoiceEnvState.decay, envelopePos := 0 }
                else { v with envelopePos := newEnvPos }
              Voice.getEnvelopeLoop fuel v' num (pos + fill.toNat) (acc ++ chunk)
        | VoiceEnvState.decay => none
        | VoiceEnvState.sustain => none
        | VoiceEnvState.release =>
            let rS : ℕ := (⌊v.ampRelease * SAMPLE_RATE⌋).toNat
            if (rS : ℤ) - (v.envelopePos : ℤ) ≤ 0 then
              some ({ v with active := false }, acc ++ List.replicate (num - pos) 0)
            else none

/-- `Voice._get_envelope(num_samples)`. -/
def Voice.getEnvelope (v : Voice) (num : ℕ) : Option (Voice × List ℚ) :=
  Voice.getEnvelopeLoop (2 * num + 4) v num 0 []

/-- State effect of `Voice.generate_samples(num_samples)` (synth_core.py
lines 48-61).  An inactive voice returns zeros untouched; otherwise the
phase advances by `num_samples / SAMPLE_RATE` (the source additionally
reduces it modulo the irrational period `1/frequency`, which changes no
sample of the `1/frequency`-periodic sine) and the envelope runs.  The
returned audio block is `sin(2π·frequency·(j/SAMPLE_RATE + phase)) ·
envelope[j] · velocity`, an irrational real for concrete notes; no claim
reads its values, only the envelope/fault structure carried here. -/
def Voice.generateSamplesState (v : Voice) (num : ℕ) : Option Voice :=
  if v.active = false then some v
  else
    let v' := { v with phaseSec := v.phaseSec + (num : ℚ) / SAMPLE_RATE }
    (v'.getEnvelope num).map Prod.fst

/-- `SynthCore` state.  The MIDI-device handles, parameter-callback list
and the scipy high-pass filter coefficients created in
`SynthCore.__init__` are I/O handles or irrational floats read by no
modelled claim and are not part of the state. -/
structure SynthCore where
  voices : List (ℕ × Voice)
  maxVoices : ℕ
  ccValues : List (ℕ × ℚ)
deriving DecidableEq, Repr

/-- `SynthCore.__init__`: no voices, `max_voices = 16`,
`cc_values = {i: 0 for i in range(128)}`. -/
def SynthCore.init : SynthCore :=
  { voices := []
    maxVoices := 16
    ccValues := (List.range 128).map (fun i => (i, (0 : ℚ))) }

/-- `SynthCore.note_on(note_num, velocity)` (lines 230-236): store a
fresh `Voice` under `note_num`, then, if the dict now exceeds
`max_voices`, delete the entry with the smallest key. -/
def SynthCore.noteOn (s : SynthCore) (noteNum velocity : ℕ) : SynthCore :=
  let voices := dictInsert noteNum (Voice.init noteNum velocity) s.voices
  if s.maxVoices < voices.length then
    match keysMin (dictKeys voices) with
    | some oldest => { s with voices := dictRemove oldest voices }
    | none => { s with voices := voices }
  else { s with voices := voices }

/-- `SynthCore.note_off(note_num)` (lines 238-240): release the matching
voice in place if present, otherwise do nothing. -/
def SynthCore.noteOff (s : SynthCore) (noteNum : ℕ) : SynthCore :=
  { s with voices := s.voices.map (fun p =>
      if p.1 = noteNum then (p.1, p.2.releaseNote) else p) }

/-- `SynthCore.handle_cc(cc_num, value)` (lines 242-243): store
`value / 127.0` under `cc_num`; no range check, a fresh key is simply
added to the dict. -/
def SynthCore.handleCc (s : SynthCore) (ccNum value : ℕ) : SynthCore :=
  { s with ccValues := dictInsert ccNum ((value : ℚ) / 127) s.ccValues }

/-- `SynthCore.process_midi_event(status, data1, data2)` (lines
197-226): dispatch on the status byte.  Program change and pitch bend
mutate nothing; unknown status bytes fall through.  No branch validates
`data1`/`data2` ranges. -/
def SynthCore.processMidiEvent (s : SynthCore) (status data1 data2 : ℕ) : SynthCore :=
  if 144 ≤ status ∧ status ≤ 159 then
    if 0 < data2 then s.noteOn data1 data2 else s.noteOff data1
  else if 128 ≤ status ∧ status ≤ 143 then s.noteOff data1
  else if 176 ≤ status ∧ status ≤ 191 then s.handleCc data1 data2
  else s

/-- The per-voice loop of `SynthCore.get_next_samples` (lines 261-266):
render every voice in dict order, recording its mutated state; a raised
exception aborts the whole call. -/
def renderVoices : List (ℕ × Voice) → ℕ → Option (List (ℕ × Voice))
  | [], _ => some []
  | (k, v) :: rest, num =>
      match v.generateSamplesState num with
      | none => none
      | some v' => (renderVoices rest num).map (fun r => (k, v') :: r)

/-- State effect of `SynthCore.get_next_samples(num_samples)` (lines
256-283): render every voice, then drop the voices that became
inactive.  The audio value pipeline that follows — the shared scipy
high-pass filter (irrational `butter` coefficients), the CC7 gain and
the final clip — is modelled stagewise by `applyMasterAndClip` below;
this definition carries the state mutation and the fault structure. -/
def SynthCore.getNextSamplesState (s : SynthCore) (num : ℕ) : Option SynthCore :=
  (renderVoices s.voices num).map (fun vs =>
    { s with voices := vs.filter (fun p => p.2.active) })

/-- Lines 275-281 of `SynthCore.get_next_samples`: given the mixed,
high-pass-filtered block, read `master_volume = cc_values[7]`, scale by
it only when `master_volume > 0`, then hard-clip to `[-1, 1]`. -/
def applyMasterAndClip (mixed : List ℚ) (masterVolume : ℚ) : List ℚ :=
  let scaled := if 0 < masterVolume then mixed.map (fun x => x * masterVolume) else mixed
  scaled.map (fun x => max (-1) (min 1 x))

/-- A noteOn/noteOff event for the voice-manager mutation claims. -/
inductive NoteOp
  | noteOn (note vel : ℕ)
  | noteOff (note : ℕ)
deriving DecidableEq, Repr

def applyOp (s : SynthCore) : NoteOp → SynthCore
  | NoteOp.noteOn n v => s.noteOn n v
  | NoteOp.noteOff n => s.noteOff n

def applyOps (s : SynthCore) (ops : List NoteOp) : SynthCore :=
  ops.foldl applyOp s

/-! #### Facts about the dict helpers -/

theorem length_dictKeys {α : Type} (l : List (ℕ × α)) :
    (dictKeys l).length = l.length := List.length_map _ _

theorem keys_dictInsert {α : Type} (k : ℕ) (v : α) (l : List (ℕ × α)) :
    dictKeys (dictInsert k v l) =
      if k ∈ dictKeys l then dictKeys l else dictKeys l ++ [k] := by
  induction l with
  | nil => simp [dictInsert, dictKeys]
  | cons p rest ih =>
      obtain ⟨k', v'⟩ := p
      by_cases h : k' = k
      · subst h
        simp [dictInsert, dictKeys]
      · have h1 : dictInsert k v ((k', v') :: rest) = (k', v') :: dictInsert k v rest := by
          simp [dictInsert, h]
        have h2 : dictKeys ((k', v') :: dictInsert k v rest)
            = k' :: dictKeys (dictInsert k v rest) := rfl
        have h3 : dictKeys ((k', v') :: rest) = k' :: dictKeys rest := rfl
        rw [h1, h2, h3, ih]
        by_cases hm : k ∈ dictKeys rest
        · rw [if_pos hm, if_pos (List.mem_cons_of_mem _ hm)]
        · have hm' : k ∉ k' :: dictKeys rest := by
            simp [hm, Ne.symm h]
          rw [if_neg hm, if_neg hm', List.cons_append]

theorem dictInsert_of_not_mem {α : Type} {k : ℕ} {l : List (ℕ × α)}
    (h : k ∉ dictKeys l) (v : α) : dictInsert k v l = l ++ [(k, v)] := by
  induction l with
  | nil => simp [dictInsert]
  | cons p rest ih =>
      obtain ⟨k', v'⟩ := p
      simp only [dictKeys, List.map_cons, List.mem_cons, not_or] at h
      have hne : k' ≠ k := fun hh => h.1 hh.symm
      simp [dictInsert, hne, ih h.2]

theorem keys_dictRemove {α : Type} (k : ℕ) (l : List (ℕ × α)) :
    dictKeys (dictRemove k l) = (dictKeys l).erase k := by
  induction l with
  | nil => simp [dictRemove, dictKeys]
  | cons p rest ih =>
      obtain ⟨k', v'⟩ := p
      by_cases h : k' = k
      · subst h
        simp [dictRemove, dictKeys]
      · have h1 : dictRemove k ((k', v') :: rest) = (k', v') :: dictRemove k rest := by
          simp [dictRemove, h]
        have h2 : dictKeys ((k', v') :: dictRemove k rest)
            = k' :: dictKeys (dictRemove k rest) := rfl
        have h3 : dictKeys ((k', v') :: rest) = k' :: dictKeys rest := rfl
        have hbeq : ¬ (k' == k) := by simp [h]
        rw [h1, h2, h3, ih, List.erase_cons_tail hbeq]

theorem dictRemove_append_of_not_mem {α : Type} {k : ℕ} {l : List (ℕ × α)}
    (h : k ∉ dictKeys l) (v : α) : dictRemove k (l ++ [(k, v)]) = l := by
  induction l with
  | nil => simp [dictRemove]
  | cons p rest ih =>
      obtain ⟨k', v'⟩ := p
      simp only [dictKeys, List.map_cons, List.mem_cons, not_or] at h
      have hne : k' ≠ k := fun hh => h.1 hh.symm
      simp [dictRemove, hne, ih h.2]

theorem dictGet_dictInsert_self {α : Type} (k : ℕ) (v : α) (l : List (ℕ × α)) :
    dictGet (dictInsert k v l) k = some v := by
  induction l with
  | nil => simp [dictInsert, dictGet]
  | cons p rest ih =>
      obtain ⟨k', v'⟩ := p
      by_cases h : k' = k <;> simp [dictInsert, dictGet, h, ih]

theorem keysMin_eq_none_iff (l : List ℕ) : keysMin l = none ↔ l = [] := by
  cases l <;> simp [keysMin]

theorem keysMin_spec : ∀ (l : List ℕ) (m : ℕ), keysMin l = some m →
    m ∈ l ∧ ∀ x ∈ l, m ≤ x := by
  intro l
  induction l with
  | nil => intro m h; simp [keysMin] at h
  | cons k rest ih =>
      intro m h
      simp only [keysMin] at h
      cases hr : keysMin rest with
      | none =>
          rw [hr] at h
          have hnil : rest = [] := (keysMin_eq_none_iff rest).mp hr
          subst hnil
          have hkm : k = m := by injection h
          subst hkm
          simp
      | some m' =>
          rw [hr] at h
          have hm : min k m' = m := by injection h
          obtain ⟨hmem, hle⟩ := ih m' hr
          subst hm
          constructor
          · rcases le_total k m' with hkm | hkm
            · simp [min_eq_left hkm]
            · rw [min_eq_right hkm]
              exact List.mem_cons_of_mem _ hmem
          · intro x hx
            rcases List.mem_cons.mp hx with rfl | hx
            · exact min_le_left _ _
            · exact le_trans (min_le_right _ _) (hle x hx)

theorem keysMin_eq_some_of_le {l : List ℕ} {m : ℕ} (hmem : m ∈ l)
    (hle : ∀ x ∈ l, m ≤ x) : keysMin l = some m := by
  cases hl : keysMin l with
  | none =>
      rw [keysMin_eq_none_iff] at hl
      subst hl
      simp at hmem
  | some m' =>
      obtain ⟨hmem', hle'⟩ := keysMin_spec l m' hl
      rw [le_antisymm (hle' m hmem) (hle m' hmem')]

/-! #### Facts about the voice-manager mutations -/

theorem noteOn_small (s : SynthCore) (n vel : ℕ)
    (h : ¬ s.maxVoices < (dictInsert n (Voice.init n vel) s.voices).length) :
    s.noteOn n vel = { s with voices := dictInsert n (Voice.init n vel) s.voices } := by
  simp [SynthCore.noteOn, h]

theorem noteOn_evict (s : SynthCore) (n vel m : ℕ)
    (h : s.maxVoices < (dictInsert n (Voice.init n vel) s.voices).length)
    (hm : keysMin (dictKeys (dictInsert n (Voice.init n vel) s.voices)) = some m) :
    s.noteOn n vel =
      { s with voices := dictRemove m (dictInsert n (Voice.init n vel) s.voices) } := by
  simp [SynthCore.noteOn, h, hm]

theorem keys_noteOff (s : SynthCore) (n : ℕ) :
    dictKeys (s.noteOff n).voices = dictKeys s.voices := by
  simp only [SynthCore.noteOff, dictKeys, List.map_map]
  refine List.map_congr_left (fun p _ => ?_)
  by_cases h : p.1 = n <;> simp [h]

theorem length_noteOff (s : SynthCore) (n : ℕ) :
    (s.noteOff n).voices.length = s.voices.length := by
  simp [SynthCore.noteOff]

theorem maxVoices_noteOn (s : SynthCore) (n vel : ℕ) :
    (s.noteOn n vel).maxVoices = s.maxVoices := by
  simp only [SynthCore.noteOn]
  split
  · split <;> rfl
  · rfl

theorem noteOn_preserves (s : SynthCore) (n vel : ℕ)
    (hnd : (dictKeys s.voices).Nodup) (hlen : s.voices.length ≤ s.maxVoices) :
    (dictKeys (s.noteOn n vel).voices).Nodup ∧
      (s.noteOn n vel).voices.length ≤ s.maxVoices := by
  have hkeys := keys_dictInsert n (Voice.init n vel) s.voices
  by_cases hm : n ∈ dictKeys s.voices
  · rw [if_pos hm] at hkeys
    have hlen' : (dictInsert n (Voice.init n vel) s.voices).length = s.voices.length := by
      rw [← length_dictKeys, hkeys, length_dictKeys]
    have hno : ¬ s.maxVoices < (dictInsert n (Voice.init n vel) s.voices).length := by
      omega
    rw [noteOn_small s n vel hno]
    constructor
    · simpa [hkeys]
    · simpa [hlen']
  · rw [if_neg hm] at hkeys
    have hlen' : (dictInsert n (Voice.init n vel) s.voices).length = s.voices.length + 1 := by
      rw [← length_dictKeys, hkeys]
      simp [length_dictKeys]
    by_cases hbig : s.maxVoices < (dictInsert n (Voice.init n vel) s.voices).length
    · have hne : dictKeys (dictInsert n (Voice.init n vel) s.voices) ≠ [] := by
        rw [hkeys]
        simp
      obtain ⟨mk, hmk⟩ : ∃ mk, keysMin (dictKeys (dictInsert n (Voice.init n vel) s.voices)) = some mk := by
        cases hmin : keysMin (dictKeys (dictInsert n (Voice.init n vel) s.voices)) with
        | none => exact absurd ((keysMin_eq_none_iff _).mp hmin) hne
        | some m => exact ⟨m, rfl⟩
      obtain ⟨hmem, _⟩ := keysMin_spec _ mk hmk
      rw [noteOn_evict s n vel mk hbig hmk]
      have hkeysr := keys_dictRemove mk (dictInsert n (Voice.init n vel) s.voices)
      constructor
      · rw [hkeysr]
        refine List.Nodup.erase mk ?_
        rw [hkeys]
        simp [List.nodup_append, hnd, hm]
      · have hrem : (dictRemove mk (dictInsert n (Voice.init n vel) s.voices)).length + 1
            = (dictInsert n (Voice.init n vel) s.voices).length := by
          rw [← length_dictKeys, ← length_dictKeys, hkeysr]
          have h1 := List.length_erase_of_mem hmem
          have h2 := List.length_pos_of_mem hmem
          omega
        show (dictRemove mk (dictInsert n (Voice.init n vel) s.voices)).length ≤ s.maxVoices
        omega
    · rw [noteOn_small s n vel hbig]
      constructor
      · rw [hkeys]
        simp [List.nodup_append, hnd, hm]
      · show (dictInsert n (Voice.init n vel) s.voices).length ≤ s.maxVoices
        omega

theorem applyOps_invariant (ops : List NoteOp) :
    ∀ (s : SynthCore), (dictKeys s.voices).Nodup → s.voices.length ≤ s.maxVoices →
      (dictKeys (applyOps s ops).voices).Nodup ∧
        (applyOps s ops).voices.length ≤ (applyOps s ops).maxVoices ∧
        (applyOps s ops).maxVoices = s.maxVoices := by
  induction ops with
  | nil => intro s hnd hlen; exact ⟨hnd, hlen, rfl⟩
  | cons op rest ih =>
      intro s hnd hlen
      cases op with
      | noteOn n vel =>
          have hpres := noteOn_preserves s n vel hnd hlen
          have hmax := maxVoices_noteOn s n vel
          have := ih (s.noteOn n vel) hpres.1 (by rw [hmax]; exact hpres.2)
          simpa [applyOps, applyOp, hmax] using this
      | noteOff n =>
          have hkeys := keys_noteOff s n
          have hlen' := length_noteOff s n
          have hmax : (s.noteOff n).maxVoices = s.maxVoices := rfl
          have := ih (s.noteOff n) (by rw [hkeys]; exact hnd)
            (by rw [hlen', hmax]; exact hlen)
          simpa [applyOps, applyOp, hmax] using this

/-! ### synth.py : AsyncSynthesizer._audio_callback

The producer/consumer bridge of the repository is the `audio_buffer`
deque of `synth.py`, filled by `_fill_buffer` and drained by
`_audio_callback` (lines 119-190).  The model covers the callback body
from the underrun check on (line 130), taking the buffer contents at
that point as part of the state.  Two attribute facts shape it:

* `prev_output`, tested at line 131, is assigned nowhere in the class,
  so that fade branch can never fire;
* `prev_samples`, tested at line 139, is assigned only at line 183,
  which is unreachable: the anti-aliasing block at line 179 calls
  `butter`, a name synth.py never imports (its imports are asyncio,
  numpy, sounddevice, Queue, threading, deque, the synth_core names,
  logging and pygame — no scipy), so every callback whose popped block
  is non-empty raises `NameError` there, and the handler at line 188
  fills the output with zeros.

The raise is modelled as `Except.error` carrying the state as already
mutated by the deque pops and the `prev_overlap` assignment of lines
147-173, which in Python survive the exception; the handler of lines
188-190 turns it into a zero block. -/
structure AudioCallbackState where
  prevOutput : Option (List ℚ)
  prevSamples : Option (List ℚ)
  prevOverlap : Option (List ℚ)
  audioBuffer : List ℚ
deriving DecidableEq, Repr

/-- `AsyncSynthesizer.__init__` (synth.py lines 16-24): the buffer is
empty and none of the `prev_*` attributes exist yet. -/
def AudioCallbackState.init : AudioCallbackState :=
  { prevOutput := none, prevSamples := none, prevOverlap := none, audioBuffer := [] }

/-- Lines 147-173: pop `frames` samples off the deque — a main block
and, when `frames > 64`, a 64-sample overlap region crossfaded against
`prev_overlap` — returning the mutated state and the popped block. -/
def audioCallbackPops (s : AudioCallbackState) (frames : ℕ) : AudioCallbackState × List ℚ :=
  let mainFrames : ℕ := if 64 < frames then frames - 64 else frames
  let overlapFrames : ℕ := if 64 < frames then 64 else 0
  let samples := s.audioBuffer.take mainFrames
  let buf := s.audioBuffer.drop mainFrames
  if 0 < overlapFrames then
    match s.prevOverlap with
    | some po =>
        let overlapSamples := buf.take overlapFrames
        ({ s with prevOverlap := some overlapSamples, audioBuffer := buf.drop overlapFrames },
         samples ++ List.zipWith (fun a b => a + b)
           (List.zipWith (fun x g => x * g) po (linspace 1 0 overlapFrames))
           (List.zipWith (fun x g => x * g) overlapSamples (linspace 0 1 overlapFrames)))
    | none =>
        ({ s with prevOverlap := some (buf.take overlapFrames), audioBuffer := buf.drop overlapFrames },
         samples)
  else
    ({ s with audioBuffer := buf }, samples)

/-- The `try` body of `_audio_callback` from line 130 on.  An underrun
(fewer than `frames` buffered samples) consults `prev_output` (line
131) then `prev_samples` (line 139), fading the remembered block only
when its length equals `frames` and zero-filling otherwise; a
non-underrun callback pops its block and, when that block is non-empty,
dies with `NameError` at line 179 (`butter` is not defined), so line
183's `prev_samples` store runs only for an empty popped block. -/
def audioCallbackTry (s : AudioCallbackState) (frames : ℕ) :
    Except AudioCallbackState (List ℚ × AudioCallbackState) :=
  if s.audioBuffer.length < frames then
    match s.prevOutput with
    | some po => Except.ok (List.zipWith (fun x g => x * g) po (linspace 1 0 frames), s)
    | none =>
        match s.prevSamples with
        | some ps =>
            if ps.length = frames then
              Except.ok (List.zipWith (fun x g => x * g) ps (linspace 1 0 frames), s)
            else Except.ok (List.replicate frames 0, s)
        | none => Except.ok (List.replicate frames 0, s)
  else
    if 0 < (audioCallbackPops s frames).2.length then
      Except.error (audioCallbackPops s frames).1
    else
      Except.ok ((audioCallbackPops s frames).2,
        { (audioCallbackPops s frames).1 with prevSamples := some (audioCallbackPops s frames).2 })

/-- The whole callback: the handler of lines 188-190 catches the
`NameError` and fills the output with zeros, the state keeping the
mutations made before the raise. -/
def audioCallback (s : AudioCallbackState) (frames : ℕ) : List ℚ × AudioCallbackState :=
  match audioCallbackTry s frames with
  | Except.ok r => r
  | Except.error s₁ => (List.replicate frames 0, s₁)

/-- A sequence of callbacks, each preceded by an arbitrary refill of
the deque by the producer (`_fill_buffer` appends on the right). -/
def runCallbacks : AudioCallbackState → List (List ℚ × ℕ) → AudioCallbackState
  | s, [] => s
  | s, (pushed, frames) :: rest =>
      runCallbacks (audioCallback { s with audioBuffer := s.audioBuffer ++ pushed } frames).2 rest

/-! #### Evaluation helpers for `Voice.getEnvelopeLoop` -/

theorem getEnvelopeLoop_stuck_decay (fuel num pos : ℕ) (v : Voice) (acc : List ℚ)
    (hpos : pos < num) (hst : v.envelopeState = VoiceEnvState.decay) :
    Voice.getEnvelopeLoop (fuel + 1) v num pos acc = none := by
  simp [Voice.getEnvelopeLoop, hst, Nat.not_le.mpr hpos]

theorem getEnvelope_attack_faults (v : Voice)
    (hst : v.envelopeState = VoiceEnvState.attack)
    (hatt : v.ampAttack = 1/100) (hpos : v.envelopePos = 0) :
    v.getEnvelope 4410 = none := by
  have haS : (⌊v.ampAttack * SAMPLE_RATE⌋).toNat = 441 := by
    rw [hatt]
    norm_num [SAMPLE_RATE]
    decide
  show Voice.getEnvelopeLoop (8823 + 1) v 4410 0 [] = none
  rw [Voice.getEnvelopeLoop]
  simp only [hst, haS, hpos]
  norm_num
  exact getEnvelopeLoop_stuck_decay 8822 4410 441 _ _ (by omega) rfl

/-! ## Claim theorems -/

/-- C1: the claimed end-to-end scenario — noteOn(60, 100) on an empty
SynthCore, then get_next_samples over the first 4410 samples driving the
voice through Attack into Decay and Sustain — cannot happen: the very
first render call raises.  Once the voice's envelope enters the decay
stage (441 samples in, after the 0.01 s default attack),
`Voice._get_envelope` reads `self.sustain`, an attribute
`Voice.__init__` never defines, and the call dies with
`AttributeError`; the model returns `none` for the whole call. -/
theorem c1_first_render_call_faults :
    (SynthCore.init.noteOn 60 100).getNextSamplesState 4410 = none := by
  have hvoices : (SynthCore.init.noteOn 60 100).voices = [(60, Voice.init 60 100)] := rfl
  simp [SynthCore.getNextSamplesState, hvoices, renderVoices, Voice.generateSamplesState,
    Voice.init]
  rw [getEnvelope_attack_faults _ rfl (by norm_num) rfl]
  rfl

/-- C3: a zero time parameter on the active stage does not make
`ADSREnvelope.generate` skip the stage — it makes it raise
`ZeroDivisionError` (`current_sample / (time · sample_rate)` with a zero
divisor), for the attack, decay and release stages alike. -/
theorem c3_zero_length_stage_faults :
    ((({ ADSREnvelope.init 44100 with attack := 0 }).triggerAttack).generate 1 = none)
  ∧ (({ ADSREnvelope.init 44100 with decay := 0, state := EnvState.decay } : ADSREnvelope).generate 1 = none)
  ∧ (({ ADSREnvelope.init 44100 with release := 0, state := EnvState.release, releaseLevel := 7/10 } : ADSREnvelope).generate 1 = none) := by
  refine ⟨?_, ?_, ?_⟩
  · simp [ADSREnvelope.generate, ADSREnvelope.step, ADSREnvelope.triggerAttack,
      ADSREnvelope.init]
  · simp [ADSREnvelope.generate, ADSREnvelope.step, ADSREnvelope.init]
  · simp [ADSREnvelope.generate, ADSREnvelope.step, ADSREnvelope.init]

/-- C4 counterexample: with the stored CC7 value 0 the output block is
not `clip(filtered_mix · 0)`: the gain stage is skipped entirely
(`if master_volume > 0`), so a nonzero block passes through unscaled. -/
theorem c4_cx_zero_master_volume_not_applied :
    applyMasterAndClip [(1 : ℚ)/2] 0
      ≠ (([(1 : ℚ)/2]).map (fun x => x * 0)).map (fun x => max (-1) (min 1 x)) := by
  norm_num [applyMasterAndClip, min_def, max_def]

/-- C4 (amended): the mixed and filtered block is multiplied by the
stored CC7 master gain before the final hard clip whenever that gain is
positive; when the stored value is 0 — as in the freshly initialized
state, where `cc_values[7] = 0` — the multiplication is skipped and the
output equals `clip(filtered_mix)`. -/
theorem c4_master_gain :
    (∀ (mixed : List ℚ) (v : ℚ), 0 < v →
       applyMasterAndClip mixed v
         = (mixed.map (fun x => x * v)).map (fun x => max (-1) (min 1 x)))
  ∧ (∀ mixed : List ℚ, applyMasterAndClip mixed 0
       = mixed.map (fun x => max (-1) (min 1 x)))
  ∧ dictGet SynthCore.init.ccValues 7 = some 0 := by
  refine ⟨fun mixed v hv => ?_, fun mixed => ?_, ?_⟩
  · simp [applyMasterAndClip, hv]
  · simp [applyMasterAndClip]
  · rfl

/-- C4 witness: the positive-gain branch of `c4_master_gain` evaluated
at the block `[2]` and gain `1/2`. -/
theorem c4_master_gain_witness :
    ((0 : ℚ) < 1/2)
  ∧ applyMasterAndClip [(2 : ℚ)] (1/2)
      = (([(2 : ℚ)].map (fun x => x * (1/2))).map (fun x => max (-1) (min 1 x))) :=
  ⟨by norm_num, c4_master_gain.1 [(2 : ℚ)] (1/2) (by norm_num)⟩

/-- C6 counterexample: an event with an out-of-range data byte is not
ignored.  A NoteOn for note 200 creates and stores a voice under key
200, and a ControlChange for controller 200 stores the normalized value
— the ingestion path has no range validation at all. -/
theorem c6_cx_out_of_range_event_not_ignored :
    (SynthCore.init.processMidiEvent 144 200 100).voices ≠ []
  ∧ dictGet (SynthCore.init.processMidiEvent 176 200 100).ccValues 200
      = some ((100 : ℚ) / 127) := by
  constructor
  · decide
  · have h := dictGet_dictInsert_self 200 (((100 : ℕ) : ℚ)/127) SynthCore.init.ccValues
    simpa [SynthCore.processMidiEvent, SynthCore.handleCc] using h

/-- C6 (amended): events carrying out-of-range note or CC numbers are
processed exactly like in-range ones — the NoteOn is dispatched to
note_on, which stores a fresh Voice under the out-of-range key (subject
only to the usual eviction bound), the ControlChange stores
`value / 127`, and no branch of the ingestion path fails (every handler
is total). -/
theorem c6_out_of_range_events_processed :
    ∀ (s : SynthCore) (note vel : ℕ), 128 ≤ note → 0 < vel →
      (s.processMidiEvent 144 note vel = s.noteOn note vel)
    ∧ (s.processMidiEvent 176 note vel = s.handleCc note vel)
    ∧ dictGet (s.handleCc note vel).ccValues note = some ((vel : ℚ) / 127)
    ∧ (1 ≤ s.maxVoices → s.voices = [] →
        dictGet (s.noteOn note vel).voices note = some (Voice.init note vel)) := by
  intro s note vel h128 hvel
  refine ⟨?_, ?_, ?_, fun hmax hnil => ?_⟩
  · simp [SynthCore.processMidiEvent, hvel]
  · simp [SynthCore.processMidiEvent]
  · exact dictGet_dictInsert_self note _ _
  · have hone : s.noteOn note vel = { s with voices := [(note, Voice.init note vel)] } := by
      simp [SynthCore.noteOn, hnil, dictInsert, Nat.not_lt.mpr hmax]
    rw [hone]
    show dictGet [(note, Voice.init note vel)] note = some (Voice.init note vel)
    simp [dictGet]

/-- C6 witness: `c6_out_of_range_events_processed` evaluated on the
initial state with note/controller number 200 and value 100. -/
theorem c6_out_of_range_events_processed_witness :
    ((128 : ℕ) ≤ 200 ∧ (0 : ℕ) < 100)
  ∧ (SynthCore.init.processMidiEvent 144 200 100 = SynthCore.init.noteOn 200 100)
  ∧ (SynthCore.init.processMidiEvent 176 200 100 = SynthCore.init.handleCc 200 100)
  ∧ dictGet (SynthCore.init.handleCc 200 100).ccValues 200 = some ((100 : ℚ) / 127)
  ∧ dictGet (SynthCore.init.noteOn 200 100).voices 200 = some (Voice.init 200 100) := by
  have h := c6_out_of_range_events_processed SynthCore.init 200 100 (by decide) (by decide)
  exact ⟨⟨by decide, by decide⟩, h.1, h.2.1, h.2.2.1, h.2.2.2 (by decide) rfl⟩

theorem audioCallbackPops_attrs (s : AudioCallbackState) (frames : ℕ) :
    (audioCallbackPops s frames).1.prevOutput = s.prevOutput
    ∧ (audioCallbackPops s frames).1.prevSamples = s.prevSamples := by
  unfold audioCallbackPops
  by_cases h : 64 < frames
  · cases s.prevOverlap <;> simp [h]
  · simp [h]

theorem audioCallbackPops_length_pos (s : AudioCallbackState) (frames : ℕ)
    (hf : 1 ≤ frames) (hbuf : frames ≤ s.audioBuffer.length) :
    0 < (audioCallbackPops s frames).2.length := by
  unfold audioCallbackPops
  by_cases h : 64 < frames
  · cases s.prevOverlap <;> simp [h, List.length_take] <;> omega
  · simp [h, List.length_take]
    omega

theorem audioCallback_silence (s : AudioCallbackState) (frames : ℕ) (hf : 1 ≤ frames)
    (hps : s.prevSamples = none) (hpo : s.prevOutput = none) :
    (audioCallback s frames).1 = List.replicate frames 0
    ∧ (audioCallback s frames).2.prevSamples = none
    ∧ (audioCallback s frames).2.prevOutput = none := by
  unfold audioCallback audioCallbackTry
  by_cases hb : s.audioBuffer.length < frames
  · simp [hb, hps, hpo]
  · have hlen := audioCallbackPops_length_pos s frames hf (Nat.not_lt.mp hb)
    have hattrs := audioCallbackPops_attrs s frames
    simp [hb, hlen, hattrs.1, hattrs.2, hps, hpo]

theorem runCallbacks_attrs (steps : List (List ℚ × ℕ)) :
    ∀ (s : AudioCallbackState), (∀ p ∈ steps, 1 ≤ p.2) →
      s.prevSamples = none → s.prevOutput = none →
      (runCallbacks s steps).prevSamples = none ∧ (runCallbacks s steps).prevOutput = none := by
  induction steps with
  | nil =>
      intro s _ hps hpo
      exact ⟨hps, hpo⟩
  | cons p rest ih =>
      intro s hall hps hpo
      obtain ⟨pushed, frames⟩ := p
      have hf : 1 ≤ frames := hall (pushed, frames) (by simp)
      have h := audioCallback_silence { s with audioBuffer := s.audioBuffer ++ pushed }
        frames hf hps hpo
      have := ih (audioCallback { s with audioBuffer := s.audioBuffer ++ pushed } frames).2
        (fun q hq => hall q (by simp [hq])) h.2.1 h.2.2
      simpa [runCallbacks] using this

/-- C8 counterexample: the underrun output is not a fade of the last
valid block.  After four constant-1 samples were pushed, a first
callback popping two of them returns silence instead of audio — the
anti-aliasing block raises `NameError` (`butter` is never imported in
synth.py) before line 183 can remember the block, so the resulting
state still has `prev_samples` unset — and the subsequent underrun
callback returns three unconditional zeros, not the linear
fade-to-zero of the constant-1 audio the claim promises. -/
theorem c8_cx_underrun_fallback_not_faded :
    (audioCallback { AudioCallbackState.init with audioBuffer := [1, 1, 1, 1] } 2
        = (List.replicate 2 0, { AudioCallbackState.init with audioBuffer := [1, 1] }))
  ∧ (audioCallback { AudioCallbackState.init with audioBuffer := [1, 1] } 3
        = (List.replicate 3 0, { AudioCallbackState.init with audioBuffer := [1, 1] }))
  ∧ (audioCallback { AudioCallbackState.init with audioBuffer := [1, 1] } 3).1
      ≠ List.zipWith (fun x g => x * g) [1, 1, 1] (linspace 1 0 3) := by
  refine ⟨?_, ?_, ?_⟩
  · simp [audioCallback, audioCallbackTry, audioCallbackPops, AudioCallbackState.init]
  · simp [audioCallback, audioCallbackTry, AudioCallbackState.init]
  · simp [audioCallback, audioCallbackTry, AudioCallbackState.init, linspace, List.range_succ]

/-- C5: triggerRelease on a non-Idle envelope whose captured level `L`
is positive and whose release span `releaseTime·sampleRate` is a whole
number `R ≥ 1` of samples: the next `R+1` generated samples ramp
linearly from exactly `L` (the sample at the trigger) down to exactly
`0` (the sample `R` steps after the trigger, i.e.
`releaseTime·sampleRate` samples later), after which the state is Idle
with the level forced to 0. -/
theorem c5_release_ramp :
    ∀ (e : ADSREnvelope) (R : ℕ), 1 ≤ R → 0 < e.currentLevel →
      e.state ≠ EnvState.idle → e.release * e.sampleRate = (R : ℚ) →
      e.triggerRelease.generate (R + 1)
        = some ({ e.triggerRelease with currentSample := R + 1, currentLevel := 0, state := EnvState.idle },
            (List.range (R + 1)).map (fun (j : ℕ) => e.currentLevel * (1 - (j : ℚ) / (R : ℚ)))) := by
  intro e R hR hL hst hRs
  have hRq : ((R : ℚ)) ≠ 0 := Nat.cast_ne_zero.mpr (by omega)
  have hrun := ADSREnvelope.release_run R (by omega) e.currentLevel hL R e.triggerRelease
    (by omega) rfl hRs rfl (by show 0 + R ≤ R; omega)
  simp only [ADSREnvelope.triggerRelease, Nat.zero_add] at hrun
  simp only [ADSREnvelope.triggerRelease]
  rw [ADSREnvelope.generate_add _ R 1, hrun]
  have hstep := ADSREnvelope.step_release_boundary { e with
      state := EnvState.release,
      currentSample := R,
      releaseLevel := e.currentLevel,
      currentLevel := e.currentLevel - e.currentLevel * (((R - 1 : ℕ) : ℚ) / (R : ℚ)) }
    R rfl hRs (by omega) rfl
  simp only [Option.some_bind, ADSREnvelope.generate_one, hstep, Option.map_some']
  refine congrArg some (Prod.ext rfl ?_)
  show ((List.range R).map
      (fun (j : ℕ) => e.currentLevel - e.currentLevel * ((j : ℚ) / (R : ℚ)))) ++ [0]
    = (List.range (R + 1)).map (fun (j : ℕ) => e.currentLevel * (1 - (j : ℚ) / (R : ℚ)))
  rw [List.range_succ, List.map_append, List.map_cons, List.map_nil]
  have hlast : e.currentLevel * (1 - (R : ℚ) / (R : ℚ)) = 0 := by
    rw [div_self hRq]
    ring
  rw [hlast]
  refine congrArg₂ List.append ?_ rfl
  refine List.map_congr_left (fun j _ => ?_)
  ring

/-- C5 witness: `c5_release_ramp` evaluated on a sustaining envelope at
level 1/2 with `release·sampleRate = 2` (release 1/22050 s at
44100 Hz). -/
theorem c5_release_ramp_witness :
    ((1 : ℕ) ≤ 2
      ∧ (0 : ℚ) < ({ ADSREnvelope.init 44100 with state := EnvState.sustain, currentLevel := 1/2, release := 1/22050 } : ADSREnvelope).currentLevel
      ∧ ({ ADSREnvelope.init 44100 with state := EnvState.sustain, currentLevel := 1/2, release := 1/22050 } : ADSREnvelope).state ≠ EnvState.idle
      ∧ ({ ADSREnvelope.init 44100 with state := EnvState.sustain, currentLevel := 1/2, release := 1/22050 } : ADSREnvelope).release
          * ({ ADSREnvelope.init 44100 with state := EnvState.sustain, currentLevel := 1/2, release := 1/22050 } : ADSREnvelope).sampleRate = ((2 : ℕ) : ℚ))
  ∧ ({ ADSREnvelope.init 44100 with state := EnvState.sustain, currentLevel := 1/2, release := 1/22050 } : ADSREnvelope).triggerRelease.generate (2 + 1)
      = some ({ ({ ADSREnvelope.init 44100 with state := EnvState.sustain, currentLevel := 1/2, release := 1/22050 } : ADSREnvelope).triggerRelease with
            currentSample := 2 + 1, currentLevel := 0, state := EnvState.idle },
          (List.range (2 + 1)).map (fun (j : ℕ) =>
            ({ ADSREnvelope.init 44100 with state := EnvState.sustain, currentLevel := 1/2, release := 1/22050 } : ADSREnvelope).currentLevel
              * (1 - (j : ℚ) / ((2 : ℕ) : ℚ)))) :=
  ⟨⟨by norm_num, by norm_num [ADSREnvelope.init], by decide, by norm_num [ADSREnvelope.init]⟩,
   c5_release_ramp _ 2 (by norm_num) (by norm_num [ADSREnvelope.init]) (by decide)
     (by norm_num [ADSREnvelope.init])⟩

/-- The test envelope of §8: attack 0.1 s, decay 0.1 s, sustain 0.8,
release 0.1 s at 44100 Hz, just triggered; the literal equals
`({ ADSREnvelope.init 44100 with attack := 1/10, decay := 1/10, sustain := 4/5, release := 1/10 }).triggerAttack`
(see `c7Env_spec`). -/
def c7Env : ADSREnvelope :=
  { sampleRate := 44100, attack := 1/10, decay := 1/10, sustain := 4/5, release := 1/10,
    currentLevel := 0, currentSample := 0, state := EnvState.attack, releaseLevel := 0 }

theorem c7Env_spec :
    c7Env = ({ ADSREnvelope.init 44100 with attack := 1/10, decay := 1/10, sustain := 4/5, release := 1/10 }).triggerAttack := rfl

/-- The envelope state right after the attack/decay boundary sample. -/
def c7Decay : ADSREnvelope :=
  { c7Env with currentLevel := 1, state := EnvState.decay, currentSample := 1 }

/-- The envelope state right after decay has settled at the sustain
level. -/
def c7Sus : ADSREnvelope :=
  { c7Env with currentLevel := 4/5, state := EnvState.sustain, currentSample := 4411 }

theorem ADSREnvelope.attack_stage (A : ℕ) (hA0 : 0 < A) (e : ADSREnvelope)
    (hst : e.state = EnvState.attack) (hA : e.attack * e.sampleRate = (A : ℚ))
    (hcs : e.currentSample = 0) :
    e.generate (A + 1)
      = some ({ e with currentLevel := 1, state := EnvState.decay, currentSample := 1 },
          (List.range (A + 1)).map (fun (j : ℕ) => (j : ℚ) / (A : ℚ))) := by
  have hrun := ADSREnvelope.attack_run A hA0 A e (by omega) hst hA (by omega)
  rw [ADSREnvelope.generate_add _ A 1, hrun]
  simp only [Option.some_bind]
  rw [ADSREnvelope.generate_one]
  have hstep := ADSREnvelope.step_attack_boundary { e with
      currentSample := e.currentSample + A,
      currentLevel := ((e.currentSample + A - 1 : ℕ) : ℚ) / (A : ℚ) }
    A hst hA hA0 (by show e.currentSample + A = A; omega)
  rw [hstep]
  simp only [Option.map_some']
  refine congrArg some (Prod.ext rfl ?_)
  show ((List.range A).map (fun j => ((e.currentSample + j : ℕ) : ℚ) / (A : ℚ))) ++ [1]
      = (List.range (A + 1)).map (fun (j : ℕ) => (j : ℚ) / (A : ℚ))
  rw [List.range_succ, List.map_append, List.map_cons, List.map_nil]
  refine congrArg₂ List.append ?_ ?_
  · refine List.map_congr_left (fun j _ => ?_)
    rw [hcs]
    norm_num
  · have hdiv : ((A : ℚ)) / (A : ℚ) = 1 := div_self (Nat.cast_ne_zero.mpr (by omega))
    rw [hdiv]

theorem ADSREnvelope.decay_stage (D : ℕ) (hD0 : 2 ≤ D) (s : ℚ) (hs1 : s < 1)
    (e : ADSREnvelope) (hst : e.state = EnvState.decay)
    (hD : e.decay * e.sampleRate = (D : ℚ)) (hsus : e.sustain = s)
    (hcs : e.currentSample = 1) :
    e.generate D
      = some ({ e with currentLevel := s, state := EnvState.sustain, currentSample := D + 1 },
          (List.range D).map (fun (k : ℕ) => 1 - (1 - s) * (((k + 1 : ℕ) : ℚ) / (D : ℚ)))) := by
  have hrun := ADSREnvelope.decay_run D (by omega) s hs1 (D - 1) e (by omega) hst hD hsus
    (by omega)
  conv_lhs => rw [show D = D - 1 + 1 from by omega]
  rw [ADSREnvelope.generate_add _ (D - 1) 1, hrun]
  simp only [Option.some_bind]
  rw [ADSREnvelope.generate_one]
  have hstep := ADSREnvelope.step_decay_boundary { e with
      currentSample := e.currentSample + (D - 1),
      currentLevel := 1 - (1 - s) * (((e.currentSample + (D - 1) - 1 : ℕ) : ℚ) / (D : ℚ)) }
    D hst hD (by omega) (by show e.currentSample + (D - 1) = D; omega)
  rw [hstep]
  simp only [Option.map_some']
  refine congrArg some (Prod.ext ?_ ?_)
  · show ({ e with
        currentLevel := e.sustain,
        state := EnvState.sustain,
        currentSample := e.currentSample + (D - 1) + 1 } : ADSREnvelope)
      = { e with currentLevel := s, state := EnvState.sustain, currentSample := D + 1 }
    rw [hsus]
    congr 1
    omega
  · show ((List.range (D - 1)).map
        (fun j => 1 - (1 - s) * (((e.currentSample + j : ℕ) : ℚ) / (D : ℚ)))) ++ [e.sustain]
      = (List.range D).map (fun (k : ℕ) => 1 - (1 - s) * (((k + 1 : ℕ) : ℚ) / (D : ℚ)))
    conv_rhs => rw [show D = D - 1 + 1 from by omega]
    rw [List.range_succ, List.map_append, List.map_cons, List.map_nil]
    refine congrArg₂ List.append ?_ ?_
    · refine List.map_congr_left (fun j _ => ?_)
      rw [hcs]
      rw [show 1 + j = j + 1 from by omega, show D - 1 + 1 = D from by omega]
    · have hd1 : (D - 1) + 1 = D := by omega
      rw [hd1]
      have hdiv : ((D : ℚ)) / (D : ℚ) = 1 := div_self (Nat.cast_ne_zero.mpr (by omega))
      rw [hdiv, hsus]
      simp only [List.cons.injEq, and_true]
      ring

theorem ADSREnvelope.release_stage (R : ℕ) (hR0 : 1 ≤ R) (L : ℚ) (hL : 0 < L)
    (e : ADSREnvelope) (hst : e.state = EnvState.release)
    (hR : e.release * e.sampleRate = (R : ℚ)) (hrl : e.releaseLevel = L)
    (hcs : e.currentSample = 0) :
    e.generate (R + 1)
      = some ({ e with currentLevel := 0, state := EnvState.idle, currentSample := R + 1 },
          (List.range (R + 1)).map (fun (j : ℕ) => L - L * ((j : ℚ) / (R : ℚ)))) := by
  have hrun := ADSREnvelope.release_run R (by omega) L hL R e (by omega) hst hR hrl (by omega)
  rw [ADSREnvelope.generate_add _ R 1, hrun]
  simp only [Option.some_bind]
  rw [ADSREnvelope.generate_one]
  have hstep := ADSREnvelope.step_release_boundary { e with
      currentSample := e.currentSample + R,
      currentLevel := L - L * (((e.currentSample + R - 1 : ℕ) : ℚ) / (R : ℚ)) }
    R hst hR (by omega) (by show e.currentSample + R = R; omega)
  rw [hstep]
  simp only [Option.map_some']
  refine congrArg some (Prod.ext ?_ ?_)
  · show ({ e with
        currentLevel := 0,
        state := EnvState.idle,
        currentSample := e.currentSample + R + 1 } : ADSREnvelope)
      = { e with currentLevel := 0, state := EnvState.idle, currentSample := R + 1 }
    congr 1
    omega
  · show ((List.range R).map (fun j => L - L * (((e.currentSample + j : ℕ) : ℚ) / (R : ℚ)))) ++ [0]
      = (List.range (R + 1)).map (fun (j : ℕ) => L - L * ((j : ℚ) / (R : ℚ)))
    rw [List.range_succ, List.map_append, List.map_cons, List.map_nil]
    refine congrArg₂ List.append ?_ ?_
    · refine List.map_congr_left (fun j _ => ?_)
      rw [hcs]
      norm_num
    · have hdiv : ((R : ℚ)) / (R : ℚ) = 1 := div_self (Nat.cast_ne_zero.mpr (by omega))
      rw [hdiv]
      simp only [List.cons.injEq, and_true]
      ring

set_option maxRecDepth 8000 in
theorem c7_phaseA :
    c7Env.generate 4411
      = some (c7Decay, (List.range 4411).map (fun (j : ℕ) => (j : ℚ) / 4410)) := by
  have h := ADSREnvelope.attack_stage 4410 (by norm_num) c7Env rfl (by norm_num [c7Env]) rfl
  rw [show (4411 : ℕ) = 4410 + 1 from rfl, h]
  refine congrArg some (Prod.ext rfl ?_)
  show (List.range (4410 + 1)).map (fun (j : ℕ) => (j : ℚ) / ((4410 : ℕ) : ℚ))
      = (List.range (4410 + 1)).map (fun (j : ℕ) => (j : ℚ) / 4410)
  refine List.map_congr_left (fun j _ => ?_)
  norm_num

set_option maxRecDepth 8000 in
theorem c7_phaseB :
    c7Decay.generate 4410
      = some (c7Sus, (List.range 4410).map (fun (k : ℕ) => 1 - ((k : ℚ) + 1) / 22050)) := by
  have h := ADSREnvelope.decay_stage 4410 (by norm_num) (4/5) (by norm_num) c7Decay rfl
    (by norm_num [c7Decay, c7Env]) rfl rfl
  rw [h]
  refine congrArg some (Prod.ext rfl ?_)
  show (List.range 4410).map (fun (k : ℕ) => 1 - (1 - 4/5) * (((k + 1 : ℕ) : ℚ) / ((4410 : ℕ) : ℚ)))
      = (List.range 4410).map (fun (k : ℕ) => 1 - ((k : ℚ) + 1) / 22050)
  refine List.map_congr_left (fun k _ => ?_)
  push_cast
  ring_nf

theorem c7_phaseC :
    ∀ n : ℕ, 1 ≤ n → c7Sus.generate n
      = some ({ c7Sus with currentSample := 4411 + n }, List.replicate n (4/5)) := by
  intro n hn
  exact ADSREnvelope.sustain_run n c7Sus hn rfl

theorem c7_phaseD1 :
    ∀ k : ℕ, k ≤ 4410 →
      (c7Sus.triggerRelease.generate k).map (fun p => ((p.1).isFinished, p.2))
        = some (false, (List.range k).map (fun (j : ℕ) => 4/5 - 4/5 * ((j : ℚ) / 4410))) := by
  intro k hk
  rcases Nat.eq_zero_or_pos k with hk0 | hk1
  · subst hk0
    simp [ADSREnvelope.generate, ADSREnvelope.isFinished, ADSREnvelope.triggerRelease]
  · have hRs : c7Sus.triggerRelease.release * c7Sus.triggerRelease.sampleRate
        = ((4410 : ℕ) : ℚ) := by
      norm_num [ADSREnvelope.triggerRelease, c7Sus, c7Env]
    have hrun := ADSREnvelope.release_run 4410 (by norm_num) (4/5) (by norm_num) k
      c7Sus.triggerRelease hk1 rfl hRs rfl (by show 0 + k ≤ 4410; omega)
    rw [hrun]
    simp only [Option.map_some']
    refine congrArg some (congrArg₂ Prod.mk ?_ ?_)
    · simp [ADSREnvelope.isFinished, ADSREnvelope.triggerRelease]
    · show (List.range k).map
          (fun j => 4/5 - 4/5 * (((c7Sus.triggerRelease.currentSample + j : ℕ) : ℚ) / ((4410 : ℕ) : ℚ)))
        = (List.range k).map (fun (j : ℕ) => 4/5 - 4/5 * ((j : ℚ) / 4410))
      refine List.map_congr_left (fun j _ => ?_)
      norm_num [ADSREnvelope.triggerRelease]

set_option maxRecDepth 8000 in
theorem c7_phaseD2 :
    c7Sus.triggerRelease.generate 4411
      = some ({ c7Sus.triggerRelease with currentLevel := 0, state := EnvState.idle, currentSample := 4411 },
          (List.range 4411).map (fun (j : ℕ) => 4/5 - 4/5 * ((j : ℚ) / 4410))) := by
  have hRs : c7Sus.triggerRelease.release * c7Sus.triggerRelease.sampleRate
      = ((4410 : ℕ) : ℚ) := by
    norm_num [ADSREnvelope.triggerRelease, c7Sus, c7Env]
  have h := ADSREnvelope.release_stage 4410 (by norm_num) (4/5) (by norm_num)
    c7Sus.triggerRelease rfl hRs rfl rfl
  rw [show (4411 : ℕ) = 4410 + 1 from rfl, h]
  refine congrArg some (Prod.ext rfl ?_)
  show (List.range (4410 + 1)).map (fun (j : ℕ) => 4/5 - 4/5 * ((j : ℚ) / ((4410 : ℕ) : ℚ)))
      = (List.range (4410 + 1)).map (fun (j : ℕ) => 4/5 - 4/5 * ((j : ℚ) / 4410))
  refine List.map_congr_left (fun j _ => ?_)
  norm_num


/-- C7: with attack 0.1 s, decay 0.1 s, sustain 0.8 and release 0.1 s
at 44100 Hz: the generated attack ramp is `j/4410`, strictly below 1
before the attack/decay boundary sample (index 4410) where it is
exactly 1; the decay ramp `1 - (k+1)/22050` settles at exactly
`4/5 = 0.8` at its last sample and the sustain stage then holds 0.8
indefinitely; after `triggerRelease()` the level sequence is
`4/5 - 4/5·(j/4410)`, reaching exactly 0 at the sample 4410 steps after
the trigger (the release span), and `isFinished()` — true iff the state
is Idle and the level is below the 0.0001 epsilon — becomes true
exactly with that sample and never earlier. -/
theorem c7_envelope_exact_levels :
    (c7Env.generate 4411
        = some (c7Decay, (List.range 4411).map (fun (j : ℕ) => (j : ℚ) / 4410))
      ∧ (∀ j : ℕ, j < 4410 → ((j : ℚ) / 4410) < 1) ∧ ((4410 : ℚ) / 4410 = 1))
  ∧ c7Decay.generate 4410
      = some (c7Sus, (List.range 4410).map (fun (k : ℕ) => 1 - ((k : ℚ) + 1) / 22050))
  ∧ ((1 - (((4409 : ℚ)) + 1) / 22050) = 4/5)
  ∧ (∀ n : ℕ, 1 ≤ n → c7Sus.generate n
      = some ({ c7Sus with currentSample := 4411 + n }, List.replicate n (4/5)))
  ∧ (∀ k : ℕ, k ≤ 4410 →
      (c7Sus.triggerRelease.generate k).map (fun p => ((p.1).isFinished, p.2))
        = some (false, (List.range k).map (fun (j : ℕ) => 4/5 - 4/5 * ((j : ℚ) / 4410))))
  ∧ (c7Sus.triggerRelease.generate 4411
        = some ({ c7Sus.triggerRelease with currentLevel := 0, state := EnvState.idle, currentSample := 4411 },
            (List.range 4411).map (fun (j : ℕ) => 4/5 - 4/5 * ((j : ℚ) / 4410)))
      ∧ (4/5 - 4/5 * (((4410 : ℚ)) / 4410) = 0)
      ∧ ADSREnvelope.isFinished { c7Sus.triggerRelease with currentLevel := 0, state := EnvState.idle, currentSample := 4411 } = true) := by
  refine ⟨⟨c7_phaseA, fun j hj => ?_, by norm_num⟩, c7_phaseB, by norm_num, c7_phaseC,
    c7_phaseD1, c7_phaseD2, by norm_num, ?_⟩
  · rw [div_lt_one (by norm_num)]
    exact_mod_cast hj
  · simp [ADSREnvelope.isFinished]

/-- C7 witness: `c7_envelope_exact_levels` with its bounded conjuncts
evaluated at `j = 0`, `n = 1` and `k = 0`. -/
theorem c7_envelope_exact_levels_witness :
    ((0 : ℕ) < 4410 ∧ ((0 : ℚ) / 4410) < 1)
  ∧ ((1 : ℕ) ≤ 1 ∧ c7Sus.generate 1
      = some ({ c7Sus with currentSample := 4411 + 1 }, List.replicate 1 (4/5)))
  ∧ ((0 : ℕ) ≤ 4410 ∧ (c7Sus.triggerRelease.generate 0).map (fun p => ((p.1).isFinished, p.2))
      = some (false, (List.range 0).map (fun (j : ℕ) => 4/5 - 4/5 * ((j : ℚ) / 4410)))) :=
  ⟨⟨by norm_num, c7_envelope_exact_levels.1.2.1 0 (by norm_num)⟩,
   ⟨le_refl 1, c7_envelope_exact_levels.2.2.2.1 1 (le_refl 1)⟩,
   ⟨by norm_num, c7_envelope_exact_levels.2.2.2.2.1 0 (by norm_num)⟩⟩

/-- C8 (amended): the fade contract is never honoured — the callback
emits unconditional silence.  `prev_samples` is assigned only at synth.py
line 183, which no callback with a positive frame count ever reaches:
the anti-aliasing block at line 179 calls `butter`, a name synth.py
never imports, so the non-empty popped block raises `NameError` and the
handler of line 190 zero-fills the output; `prev_output` is assigned
nowhere at all.  Hence after any sequence of callbacks with positive
frame counts, interleaved with arbitrary producer refills, both
attributes are still unset, and the next callback — in particular any
underrun, where the buffer holds fewer than `frames` samples — returns
`frames` zeros: an abrupt jump to silence, never a fade of the last
valid block. -/
theorem c8_underrun_unconditional_silence :
    ∀ (steps : List (List ℚ × ℕ)), (∀ p ∈ steps, 1 ≤ p.2) →
      (runCallbacks AudioCallbackState.init steps).prevSamples = none
    ∧ (runCallbacks AudioCallbackState.init steps).prevOutput = none
    ∧ ∀ (pushed : List ℚ) (frames : ℕ), 1 ≤ frames →
        (audioCallback
            { runCallbacks AudioCallbackState.init steps with
                audioBuffer := (runCallbacks AudioCallbackState.init steps).audioBuffer ++ pushed }
            frames).1
          = List.replicate frames 0 := by
  intro steps hsteps
  have h := runCallbacks_attrs steps AudioCallbackState.init hsteps rfl rfl
  refine ⟨h.1, h.2, ?_⟩
  intro pushed frames hf
  exact (audioCallback_silence
    { runCallbacks AudioCallbackState.init steps with
        audioBuffer := (runCallbacks AudioCallbackState.init steps).audioBuffer ++ pushed }
    frames hf h.1 h.2).1

/-- C8 witness: `c8_underrun_unconditional_silence` evaluated at the
two-callback trace of the counterexample — a healthy callback popping
two of four pushed samples, then an underrun asking for three frames
with only two buffered. -/
theorem c8_underrun_unconditional_silence_witness :
    (∀ p ∈ [(([1, 1, 1, 1] : List ℚ), 2)], 1 ≤ p.2)
  ∧ (runCallbacks AudioCallbackState.init [([1, 1, 1, 1], 2)]).prevSamples = none
  ∧ (runCallbacks AudioCallbackState.init [([1, 1, 1, 1], 2)]).audioBuffer.length < 3
  ∧ (audioCallback
      { runCallbacks AudioCallbackState.init [([1, 1, 1, 1], 2)] with
          audioBuffer := (runCallbacks AudioCallbackState.init [([1, 1, 1, 1], 2)]).audioBuffer ++ [] }
      3).1
      = List.replicate 3 0 := by
  have h := c8_underrun_unconditional_silence [([1, 1, 1, 1], 2)] (by simp)
  refine ⟨by simp, h.1, ?_, h.2.2 [] 3 (by norm_num)⟩
  simp [runCallbacks, audioCallback, audioCallbackTry, audioCallbackPops, AudioCallbackState.init]

/-- C9 counterexample: `Oscillator.generate(0)` does not return an empty
block with the phase advanced by zero — `phases[-1]` on the empty phase
array raises `IndexError`. -/
theorem c9_cx_generate_zero_faults :
    Oscillator.generate (Oscillator.init 44100) 0 = none := rfl

theorem Oscillator.generate_pos (o : Oscillator) (n : ℕ) (hn : 1 ≤ n) :
    o.generate n =
      some ({ o with phaseRev := Int.fract (o.phaseRev + o.frequency / o.sampleRate * n) },
            (List.range n).map (fun (j : ℕ) => o.phaseRev + o.frequency / o.sampleRate * (j : ℚ))) := by
  obtain ⟨m, rfl⟩ : ∃ m, n = m + 1 := ⟨n - 1, by omega⟩
  have hlast : ((List.range (m + 1)).map
      (fun (j : ℕ) => o.phaseRev + o.frequency / o.sampleRate * (j : ℚ))).getLast?
      = some (o.phaseRev + o.frequency / o.sampleRate * m) := by
    rw [List.range_succ, List.map_append]
    simp
  simp only [Oscillator.generate, hlast]
  have harg : o.phaseRev + o.frequency / o.sampleRate * (m : ℚ) + o.frequency / o.sampleRate
      = o.phaseRev + o.frequency / o.sampleRate * (((m + 1 : ℕ)) : ℚ) := by
    push_cast
    ring
  rw [harg]

theorem fract_add_fract_left (x y : ℚ) :
    Int.fract (Int.fract x + y) = Int.fract (x + y) := by
  rw [← Int.self_sub_floor x]
  have h : x - (⌊x⌋ : ℚ) + y = x + y - (⌊x⌋ : ℚ) := by ring
  rw [h, Int.fract_sub_int]

/-- C9 (amended): for every oscillator state and every block size
`count ≥ 1`, `generate(count)` returns `count` samples and leaves the
phase at exactly `(old phase + 2π·frequency·count/sampleRate) mod 2π`
(in revolutions: `fract(phase + frequency·count/sampleRate)`); and for
`m, n ≥ 1` the emitted samples of `generate(m)` followed by
`generate(n)` agree sample-for-sample with those of `generate(m+n)`,
the oscillator states after both runs being equal outright — the sine
is evaluated at phases that differ by the integer dropped by the mod,
so `Real.sin (2π·φ)` agrees pointwise. -/
theorem c9_phase_continuity :
    (∀ (o : Oscillator) (n : ℕ), 1 ≤ n →
       ∃ (o' : Oscillator) (l : List ℚ), o.generate n = some (o', l) ∧ l.length = n
         ∧ o'.phaseRev = Int.fract (o.phaseRev + o.frequency / o.sampleRate * n)
         ∧ o'.frequency = o.frequency ∧ o'.sampleRate = o.sampleRate
         ∧ o'.waveform = o.waveform)
  ∧ (∀ (o : Oscillator) (m n : ℕ), 1 ≤ m → 1 ≤ n →
       ∃ (o₁ : Oscillator) (l₁ : List ℚ) (o₂ : Oscillator) (l₂ : List ℚ)
         (o₃ : Oscillator) (l₃ : List ℚ),
         o.generate m = some (o₁, l₁) ∧ o₁.generate n = some (o₂, l₂)
         ∧ o.generate (m + n) = some (o₃, l₃) ∧ o₂ = o₃
         ∧ List.Forall₂
             (fun a b : ℚ => Real.sin (2 * Real.pi * (a : ℝ)) = Real.sin (2 * Real.pi * (b : ℝ)))
             (l₁ ++ l₂) l₃) := by
  constructor
  · intro o n hn
    exact ⟨_, _, o.generate_pos n hn, by simp, rfl, rfl, rfl, rfl⟩
  · intro o m n hm hn
    have h₁ := o.generate_pos m hm
    set o₁ : Oscillator :=
      { o with phaseRev := Int.fract (o.phaseRev + o.frequency / o.sampleRate * m) } with ho₁
    have h₂ := o₁.generate_pos n hn
    have h₃ := o.generate_pos (m + n) (by omega)
    have hstate : ({ o₁ with
        phaseRev := Int.fract (o₁.phaseRev + o₁.frequency / o₁.sampleRate * n) } : Oscillator)
        = { o with phaseRev := Int.fract (o.phaseRev + o.frequency / o.sampleRate * (((m + n : ℕ)) : ℚ)) } := by
      simp only [ho₁]
      congr 1
      rw [fract_add_fract_left]
      congr 1
      push_cast
      ring
    refine ⟨o₁, _, _, _, _, _, h₁, h₂, h₃, hstate, ?_⟩
    have hsplit : List.range (m + n) = List.range m ++ (List.range n).map (fun j => m + j) := by
      rw [List.range_add]
    rw [hsplit, List.map_append, List.map_map]
    refine List.rel_append ?_ ?_
    · exact List.forall₂_same.mpr (fun x _ => rfl)
    · rw [List.forall₂_map_left_iff, List.forall₂_map_right_iff]
      refine List.forall₂_same.mpr (fun j _ => ?_)
      show Real.sin (2 * Real.pi * ((Int.fract (o.phaseRev + o.frequency / o.sampleRate * m)
            + o.frequency / o.sampleRate * j : ℚ) : ℝ))
          = Real.sin (2 * Real.pi * ((o.phaseRev + o.frequency / o.sampleRate * (((m + j : ℕ)) : ℚ) : ℚ) : ℝ))
      rw [← Int.self_sub_floor (o.phaseRev + o.frequency / o.sampleRate * m)]
      have hangle : (2 : ℝ) * Real.pi * ((o.phaseRev + o.frequency / o.sampleRate * m
            - (⌊o.phaseRev + o.frequency / o.sampleRate * m⌋ : ℚ)
            + o.frequency / o.sampleRate * j : ℚ) : ℝ)
          = 2 * Real.pi * ((o.phaseRev + o.frequency / o.sampleRate * (((m + j : ℕ)) : ℚ) : ℚ) : ℝ)
            + (-⌊o.phaseRev + o.frequency / o.sampleRate * m⌋ : ℤ) * (2 * Real.pi) := by
        push_cast
        ring
      rw [hangle, Real.sin_add_int_mul_two_pi]

/-- C9 witness: both conjuncts of `c9_phase_continuity` evaluated at
the freshly initialized 44100 Hz oscillator with block sizes 1 and 1. -/
theorem c9_phase_continuity_witness :
    (∃ (o' : Oscillator) (l : List ℚ),
       (Oscillator.init 44100).generate 1 = some (o', l) ∧ l.length = 1
       ∧ o'.phaseRev = Int.fract ((Oscillator.init 44100).phaseRev
           + (Oscillator.init 44100).frequency / (Oscillator.init 44100).sampleRate * (1 : ℕ))
       ∧ o'.frequency = (Oscillator.init 44100).frequency
       ∧ o'.sampleRate = (Oscillator.init 44100).sampleRate
       ∧ o'.waveform = (Oscillator.init 44100).waveform)
  ∧ (∃ (o₁ : Oscillator) (l₁ : List ℚ) (o₂ : Oscillator) (l₂ : List ℚ)
       (o₃ : Oscillator) (l₃ : List ℚ),
       (Oscillator.init 44100).generate 1 = some (o₁, l₁)
       ∧ o₁.generate 1 = some (o₂, l₂)
       ∧ (Oscillator.init 44100).generate (1 + 1) = some (o₃, l₃) ∧ o₂ = o₃
       ∧ List.Forall₂
           (fun a b : ℚ => Real.sin (2 * Real.pi * (a : ℝ)) = Real.sin (2 * Real.pi * (b : ℝ)))
           (l₁ ++ l₂) l₃) :=
  ⟨c9_phase_continuity.1 (Oscillator.init 44100) 1 (by decide),
   c9_phase_continuity.2 (Oscillator.init 44100) 1 1 (by decide) (by decide)⟩

/-- C2: after any sequence of noteOn/noteOff calls from the initial
state the number of live voices never exceeds `max_voices`; an
insertion of a fresh note into a full dict evicts exactly one voice,
the one with the numerically lowest note number among the keys present
after the insertion; and with `max_voices = 2` the sequence
noteOn(60), noteOn(64), noteOn(67) leaves exactly the keys 64 and 67
live. -/
theorem c2_polyphony_bound_and_lowest_key_eviction :
    (∀ (maxV : ℕ) (ops : List NoteOp),
       (applyOps { SynthCore.init with maxVoices := maxV } ops).voices.length ≤ maxV)
  ∧ (∀ (s : SynthCore) (n vel : ℕ),
       (dictKeys s.voices).Nodup → n ∉ dictKeys s.voices →
       s.voices.length = s.maxVoices →
       ∃ m, keysMin (dictKeys s.voices ++ [n]) = some m
         ∧ m ∈ dictKeys s.voices ++ [n]
         ∧ (∀ x ∈ dictKeys s.voices ++ [n], m ≤ x)
         ∧ dictKeys (s.noteOn n vel).voices = (dictKeys s.voices ++ [n]).erase m
         ∧ (s.noteOn n vel).voices.length = s.maxVoices)
  ∧ dictKeys (applyOps { SynthCore.init with maxVoices := 2 }
       [NoteOp.noteOn 60 100, NoteOp.noteOn 64 100, NoteOp.noteOn 67 100]).voices
      = [64, 67] := by
  refine ⟨fun maxV ops => ?_, fun s n vel hnd hmem hlen => ?_, by decide⟩
  · have h := applyOps_invariant ops { SynthCore.init with maxVoices := maxV }
      (by simp [SynthCore.init, dictKeys]) (by simp [SynthCore.init])
    have := h.2.1
    rw [h.2.2] at this
    exact this
  · have hkeys := keys_dictInsert n (Voice.init n vel) s.voices
    rw [if_neg hmem] at hkeys
    have hlen' : (dictInsert n (Voice.init n vel) s.voices).length = s.voices.length + 1 := by
      rw [← length_dictKeys, hkeys]
      simp [length_dictKeys]
    have hbig : s.maxVoices < (dictInsert n (Voice.init n vel) s.voices).length := by
      omega
    rw [← hkeys]
    have hne : dictKeys (dictInsert n (Voice.init n vel) s.voices) ≠ [] := by
      rw [hkeys]
      simp
    obtain ⟨mk, hmk⟩ : ∃ mk,
        keysMin (dictKeys (dictInsert n (Voice.init n vel) s.voices)) = some mk := by
      cases hmin : keysMin (dictKeys (dictInsert n (Voice.init n vel) s.voices)) with
      | none => exact absurd ((keysMin_eq_none_iff _).mp hmin) hne
      | some m => exact ⟨m, rfl⟩
    obtain ⟨hmem', hle'⟩ := keysMin_spec _ mk hmk
    refine ⟨mk, hmk, hmem', hle', ?_, ?_⟩
    · rw [noteOn_evict s n vel mk hbig hmk]
      exact keys_dictRemove mk _
    · rw [noteOn_evict s n vel mk hbig hmk]
      show (dictRemove mk (dictInsert n (Voice.init n vel) s.voices)).length = s.maxVoices
      have h1 : (dictRemove mk (dictInsert n (Voice.init n vel) s.voices)).length
          = ((dictKeys (dictInsert n (Voice.init n vel) s.voices)).erase mk).length := by
        rw [← length_dictKeys, keys_dictRemove]
      have h2 := List.length_erase_of_mem hmem'
      rw [h1, h2, length_dictKeys]
      omega

/-- C2 witness: the eviction conjunct of
`c2_polyphony_bound_and_lowest_key_eviction` evaluated on a full
two-voice manager holding notes 64 and 67 when note 60 arrives. -/
theorem c2_polyphony_bound_and_lowest_key_eviction_witness :
    ((dictKeys ({ SynthCore.init with maxVoices := 2, voices := [(64, Voice.init 64 100), (67, Voice.init 67 100)] } : SynthCore).voices).Nodup
      ∧ 60 ∉ dictKeys ({ SynthCore.init with maxVoices := 2, voices := [(64, Voice.init 64 100), (67, Voice.init 67 100)] } : SynthCore).voices
      ∧ ({ SynthCore.init with maxVoices := 2, voices := [(64, Voice.init 64 100), (67, Voice.init 67 100)] } : SynthCore).voices.length
          = ({ SynthCore.init with maxVoices := 2, voices := [(64, Voice.init 64 100), (67, Voice.init 67 100)] } : SynthCore).maxVoices)
  ∧ (∃ m, keysMin (dictKeys ({ SynthCore.init with maxVoices := 2, voices := [(64, Voice.init 64 100), (67, Voice.init 67 100)] } : SynthCore).voices ++ [60]) = some m
      ∧ m ∈ dictKeys ({ SynthCore.init with maxVoices := 2, voices := [(64, Voice.init 64 100), (67, Voice.init 67 100)] } : SynthCore).voices ++ [60]
      ∧ (∀ x ∈ dictKeys ({ SynthCore.init with maxVoices := 2, voices := [(64, Voice.init 64 100), (67, Voice.init 67 100)] } : SynthCore).voices ++ [60], m ≤ x)
      ∧ dictKeys (({ SynthCore.init with maxVoices := 2, voices := [(64, Voice.init 64 100), (67, Voice.init 67 100)] } : SynthCore).noteOn 60 99).voices
          = (dictKeys ({ SynthCore.init with maxVoices := 2, voices := [(64, Voice.init 64 100), (67, Voice.init 67 100)] } : SynthCore).voices ++ [60]).erase m
      ∧ (({ SynthCore.init with maxVoices := 2, voices := [(64, Voice.init 64 100), (67, Voice.init 67 100)] } : SynthCore).noteOn 60 99).voices.length
          = ({ SynthCore.init with maxVoices := 2, voices := [(64, Voice.init 64 100), (67, Voice.init 67 100)] } : SynthCore).maxVoices) :=
  ⟨⟨by decide, by decide, by decide⟩,
   c2_polyphony_bound_and_lowest_key_eviction.2.1
     { SynthCore.init with maxVoices := 2, voices := [(64, Voice.init 64 100), (67, Voice.init 67 100)] }
     60 99 (by decide) (by decide) (by decide)⟩

/-- C10: when the live set is full and a noteOn arrives whose note
number is strictly below every live key (hence not already present),
the freshly inserted voice is itself the minimum and is evicted by the
very call that created it: the voice dict is left exactly as it was and
the new note never sounds. -/
theorem c10_lowest_new_note_evicts_itself :
    ∀ (s : SynthCore) (n vel : ℕ),
      (dictKeys s.voices).Nodup →
      s.voices.length = s.maxVoices →
      (∀ k ∈ dictKeys s.voices, n < k) →
      (s.noteOn n vel).voices = s.voices := by
  intro s n vel hnd hlen hlow
  have hmem : n ∉ dictKeys s.voices := fun hm => lt_irrefl n (hlow n hm)
  have hins := dictInsert_of_not_mem hmem (Voice.init n vel)
  have hkeys := keys_dictInsert n (Voice.init n vel) s.voices
  rw [if_neg hmem] at hkeys
  have hlen' : (dictInsert n (Voice.init n vel) s.voices).length = s.voices.length + 1 := by
    rw [← length_dictKeys, hkeys]
    simp [length_dictKeys]
  have hbig : s.maxVoices < (dictInsert n (Voice.init n vel) s.voices).length := by
    omega
  have hminn : keysMin (dictKeys (dictInsert n (Voice.init n vel) s.voices)) = some n := by
    rw [hkeys]
    refine keysMin_eq_some_of_le (by simp) ?_
    intro x hx
    rcases List.mem_append.mp hx with hx | hx
    · exact le_of_lt (hlow x hx)
    · simp at hx
      omega
  rw [noteOn_evict s n vel n hbig hminn]
  show dictRemove n (dictInsert n (Voice.init n vel) s.voices) = s.voices
  rw [hins]
  exact dictRemove_append_of_not_mem hmem _

/-- C10 witness: `c10_lowest_new_note_evicts_itself` evaluated on a
full two-voice manager holding notes 64 and 67 receiving noteOn(60):
the voice dict is unchanged. -/
theorem c10_lowest_new_note_evicts_itself_witness :
    ((dictKeys ({ SynthCore.init with maxVoices := 2, voices := [(64, Voice.init 64 100), (67, Voice.init 67 100)] } : SynthCore).voices).Nodup
      ∧ ({ SynthCore.init with maxVoices := 2, voices := [(64, Voice.init 64 100), (67, Voice.init 67 100)] } : SynthCore).voices.length
          = ({ SynthCore.init with maxVoices := 2, voices := [(64, Voice.init 64 100), (67, Voice.init 67 100)] } : SynthCore).maxVoices
      ∧ (∀ k ∈ dictKeys ({ SynthCore.init with maxVoices := 2, voices := [(64, Voice.init 64 100), (67, Voice.init 67 100)] } : SynthCore).voices, 60 < k))
  ∧ (({ SynthCore.init with maxVoices := 2, voices := [(64, Voice.init 64 100), (67, Voice.init 67 100)] } : SynthCore).noteOn 60 77).voices
      = [(64, Voice.init 64 100), (67, Voice.init 67 100)] :=
  ⟨⟨by decide, by decide, by decide⟩,
   c10_lowest_new_note_evicts_itself
     { SynthCore.init with maxVoices := 2, voices := [(64, Voice.init 64 100), (67, Voice.init 67 100)] }
     60 77 (by decide) (by decide) (by decide)⟩

end Synth
